import Mathlib

/-!
# Verification of the ingredient-normalization pipeline

Shallow embedding of the grocery-list ingredient pipeline:

* `lib/ingredients/parser.ts` — unit table, name normalizer, line parser
  (`UNIT_MAP`, `NAME_NORMALIZATION_MAP`, `extractBaseNameAndPrep`,
  `normalizeCanonicalName`, `normalizeUnit`, `enrichParsedIngredient`,
  `parseIngredientRegex`, `parseIngredient`, `parseIngredients`);
* `lib/ingredients/aggregator.ts` — `formatQuantity`, `formatDisplayName`,
  `aggregateIngredients`;
* `lib/ingredients/categorizer.ts` — `normalizeForAICategorization`,
  `postProcessSection`, `categorizeIngredient`, `categorizeIngredients`.

Modelling conventions:

* JavaScript numbers are modelled as rationals (`ℚ`).  The quantities the
  pipeline manipulates are decimal/fractional literals, all exactly
  representable.  The JavaScript values `NaN` and `Infinity` (reachable only
  through a fraction with denominator `0`) are outside the rational model;
  the parser drops `NaN` via an explicit `isNaN` guard, and we treat a
  denominator-zero fraction as "no usable quantity" as well.
* Strings are modelled as `String`, processed as `List Char`.  Case mapping
  uses `Char.toLower`/`Char.toUpper` (ASCII, which covers the pipeline's
  vocabulary).  JavaScript string truthiness (`""` is falsy) and number
  truthiness (`0` is falsy) are modelled explicitly.
* The TypeScript union `"tsp" | "tbsp" | "cup" | "unit" | "none"` is kept as
  `String`, exactly as it is at the JavaScript runtime.
* The two external AI calls are modelled as oracles passed in as data: the
  text-interpretation call as `Option (List ParsedIngredient)` (`none` models
  a thrown/failed/malformed-JSON call) and the classification call as
  `Option (List (String × String))` (an association list modelling the
  name→section JSON object; `none` models a failed call).  Quantifying over
  the oracle quantifies over every possible external response.
-/

/-- JavaScript whitespace (the ASCII part of `\s` / `String.prototype.trim`):
space, tab, line feed, carriage return, vertical tab, form feed. -/
def jsIsSpace (c : Char) : Bool :=
  c = ' ' || c = '\t' || c = '\n' || c = '\r' || c = Char.ofNat 11 || c = Char.ofNat 12

/-- JavaScript line terminators (which `.` in a regex does not match). -/
def jsIsLineTerm (c : Char) : Bool := c = '\n' || c = '\r'

/-- `String.prototype.toLowerCase`, on the character list. -/
def jsLowerL (cs : List Char) : List Char := cs.map Char.toLower

/-- `String.prototype.toLowerCase`. -/
def jsLower (s : String) : String := ⟨jsLowerL s.data⟩

/-- `String.prototype.trim`, on the character list. -/
def jsTrimL (cs : List Char) : List Char :=
  ((cs.dropWhile jsIsSpace).reverse.dropWhile jsIsSpace).reverse

/-- `String.prototype.trim`. -/
def jsTrim (s : String) : String := ⟨jsTrimL s.data⟩

/-- First-match association-list lookup, modelling JavaScript object-literal
property access `obj[key]` (the literals below have pairwise-distinct keys). -/
def assocLookup {α : Type} : List (String × α) → String → Option α
  | [], _ => none
  | (k, v) :: rest, key => if k = key then some v else assocLookup rest key

/-- Case-sensitive substring test on character lists
(`String.prototype.includes`). -/
def hasSubL (needle : List Char) : List Char → Bool
  | [] => needle.isEmpty
  | c :: t => needle.isPrefixOf (c :: t) || hasSubL needle t

/-- `String.prototype.includes`. -/
def strIncludes (hay needle : String) : Bool := hasSubL needle.data hay.data

/-- JavaScript truthiness of an optional string (`undefined` and `""` are
falsy). -/
def strTruthy : Option String → Bool
  | none => false
  | some s => s ≠ ""

/-- JavaScript truthiness of an optional number (`undefined` and `0` are
falsy). -/
def numTruthy : Option ℚ → Bool
  | none => false
  | some q => q ≠ 0

/-- Digit run to a natural number. -/
def digitsToNat (ds : List Char) : Nat :=
  ds.foldl (fun n c => 10 * n + (c.toNat - 48)) 0

/-- Decimal literal `⟨int⟩.⟨frac⟩` as a rational (JavaScript `parseFloat` /
`Number` on the strings the parser's regexes can capture). -/
def parseDecimalQ (intDs fracDs : List Char) : ℚ :=
  (digitsToNat intDs : ℚ) + (digitsToNat fracDs : ℚ) / ((10 : ℚ) ^ fracDs.length)

/-! ## The data model (`lib/ingredients/types.ts`) -/

/-- `ParsedIngredient` from `lib/ingredients/types.ts`.  `baseUnit` is one of
the strings `"tsp" | "tbsp" | "cup" | "unit" | "none"` (kept as `String`, as
at the JavaScript runtime). -/
structure ParsedIngredient where
  raw : String
  name : String
  baseName : String
  prepNote : Option String := none
  canonicalName : String
  quantity : Option ℚ := none
  unit : Option String := none
  baseUnit : Option String := none
  quantityInBaseUnits : Option ℚ := none
  notes : Option String := none
  originalText : String
  deriving DecidableEq, Repr, Inhabited

/-- `AggregatedIngredient` from `lib/ingredients/types.ts` (the aggregator
always sets `canonicalName`, `baseName` and `baseUnit`, so they are plain
fields here; `category` is never written and is omitted). -/
structure AggregatedIngredient where
  name : String
  canonicalName : String
  baseName : String
  totalQuantity : Option ℚ
  unit : Option String
  baseUnit : String
  lines : List ParsedIngredient
  «section» : String
  deriving DecidableEq, Repr

/-! ## Unit table and unit normalization (`parser.ts`) -/

/-- An entry of the unit table: base unit and conversion factor. -/
structure UnitInfo where
  baseUnit : String
  factor : ℚ
  deriving DecidableEq, Repr

/-- `UNIT_MAP` from `lib/ingredients/parser.ts` (lines 49–78), verbatim. -/
def UNIT_MAP : List (String × UnitInfo) :=
  [ ("tsp", ⟨"tsp", 1⟩), ("teaspoon", ⟨"tsp", 1⟩), ("teaspoons", ⟨"tsp", 1⟩),
    ("tbsp", ⟨"tbsp", 1⟩), ("tablespoon", ⟨"tbsp", 1⟩), ("tablespoons", ⟨"tbsp", 1⟩),
    ("cup", ⟨"cup", 1⟩), ("cups", ⟨"cup", 1⟩),
    ("clove", ⟨"unit", 1⟩), ("cloves", ⟨"unit", 1⟩),
    ("lb", ⟨"unit", 1⟩), ("lbs", ⟨"unit", 1⟩),
    ("pound", ⟨"unit", 1⟩), ("pounds", ⟨"unit", 1⟩),
    ("oz", ⟨"unit", 1⟩), ("ounce", ⟨"unit", 1⟩), ("ounces", ⟨"unit", 1⟩),
    ("can", ⟨"unit", 1⟩), ("cans", ⟨"unit", 1⟩),
    ("head", ⟨"unit", 1⟩), ("heads", ⟨"unit", 1⟩),
    ("bunch", ⟨"unit", 1⟩), ("bunches", ⟨"unit", 1⟩),
    ("fillet", ⟨"unit", 1⟩), ("fillets", ⟨"unit", 1⟩),
    ("breast", ⟨"unit", 1⟩), ("breasts", ⟨"unit", 1⟩),
    ("", ⟨"none", 1⟩) ]

/-- `normalizeUnit` from `lib/ingredients/parser.ts` (lines 158–198).
Returns the pair `(baseUnit, quantityInBaseUnits)`.  The JavaScript
truthiness tests `!unit` and `!quantity` are modelled by `strTruthy` /
`numTruthy`. -/
def normalizeUnit (unit : Option String) (quantity : Option ℚ) :
    String × Option ℚ :=
  -- If we have a quantity but no unit, treat as "unit"
  if strTruthy unit = false ∧ quantity ≠ none then
    ("unit", quantity)
  else if strTruthy unit = false ∨ numTruthy quantity = false then
    ("none", none)
  else
    let q := quantity.getD 0
    let normalizedUnit := jsTrim (jsLower (unit.getD ""))
    match assocLookup UNIT_MAP normalizedUnit with
    | some unitInfo =>
      if unitInfo.baseUnit = "cup" then
        -- 1 cup = 16 tbsp
        ("tbsp", some (q * 16))
      else if unitInfo.baseUnit = "tbsp" then
        ("tbsp", some q)
      else if unitInfo.baseUnit = "tsp" then
        ("tsp", some q)
      else
        (unitInfo.baseUnit, some q)
    | none =>
      -- Unknown unit - treat as "unit" if we have a quantity
      ("unit", some q)

/-! ## Name normalization (`parser.ts`) -/

/-- `NAME_NORMALIZATION_MAP` from `lib/ingredients/parser.ts` (lines 8–46),
verbatim. -/
def NAME_NORMALIZATION_MAP : List (String × String) :=
  [ ("garlic cloves", "garlic"), ("cloves garlic", "garlic"), ("clove garlic", "garlic"),
    ("green onions", "green onions"), ("scallions", "green onions"),
    ("zucchinis", "zucchini"), ("zucchini", "zucchini"), ("zucchini noodles", "zucchini"),
    ("red bell pepper", "bell pepper"), ("yellow bell pepper", "bell pepper"),
    ("orange bell pepper", "bell pepper"), ("green bell pepper", "bell pepper"),
    ("bell peppers", "bell pepper"), ("bell pepper", "bell pepper"),
    ("cherry tomatoes", "cherry tomatoes"), ("cherry tomatoes, halved", "cherry tomatoes"),
    ("basil leaves", "basil"), ("basil", "basil"),
    ("feta cheese", "feta cheese"), ("feta cheese, crumbled", "feta cheese"),
    ("parmesan cheese", "parmesan cheese"), ("grated parmesan cheese", "parmesan cheese"),
    ("cooked quinoa", "cooked quinoa"),
    ("red lentils", "red lentils"), ("red lentils, rinsed", "red lentils"),
    ("lime", "lime"), ("lime wedges", "lime"), ("juice of 1 lime", "lime"),
    ("lime juice", "lime"),
    ("broccoli florets", "broccoli florets"),
    ("fresh ginger", "ginger"), ("ginger root", "ginger"),
    ("apple cider vinegar", "apple cider vinegar"),
    ("dried oregano", "oregano"),
    ("salt and pepper", "salt and pepper"), ("salt & pepper", "salt and pepper"),
    ("black pepper", "black pepper") ]

/-- Strip an exact token from the front of a character list. -/
def stripToken (pat cs : List Char) : Option (List Char) :=
  if pat.isPrefixOf cs then some (cs.drop pat.length) else none

/-- Strip a token from the front, comparing case-insensitively (the regexes
below all carry the `/i` flag). -/
def stripTokenCI (pat cs : List Char) : Option (List Char) :=
  if jsLowerL (cs.take pat.length) = pat then some (cs.drop pat.length) else none

/-- `\s+`: require at least one whitespace character and consume the whole
run (greedy; every follower below starts with a non-space). -/
def dropSpaces1 : List Char → Option (List Char)
  | [] => none
  | c :: rest => if jsIsSpace c then some (rest.dropWhile jsIsSpace) else none

/-- `/^salt\s*(and|&)\s*pepper/` on an (already lower-cased) character
list. -/
def reSaltAndPepper (cs : List Char) : Bool :=
  match stripToken "salt".data cs with
  | none => false
  | some r1 =>
    let r2 := r1.dropWhile jsIsSpace
    match (stripToken "and".data r2).orElse (fun _ => stripToken "&".data r2) with
    | none => false
    | some r3 => "pepper".data.isPrefixOf (r3.dropWhile jsIsSpace)

/-- `/^salt\s+to\s+taste/` on an (already lower-cased) character list. -/
def reSaltToTaste (cs : List Char) : Bool :=
  (stripToken "salt".data cs).bind (fun r1 =>
    (dropSpaces1 r1).bind (fun r2 =>
      (stripToken "to".data r2).bind (fun r3 =>
        (dropSpaces1 r3).map (fun r4 => "taste".data.isPrefixOf r4)))) |>.getD false

/-- `/^pepper\s+to\s+taste$/` on an (already lower-cased) character list. -/
def rePepperToTaste (cs : List Char) : Bool :=
  (stripToken "pepper".data cs).bind (fun r1 =>
    (dropSpaces1 r1).bind (fun r2 =>
      (stripToken "to".data r2).bind (fun r3 =>
        (dropSpaces1 r3).bind (fun r4 =>
          (stripToken "taste".data r4).map (fun r5 => r5.isEmpty))))) |>.getD false

/-- `normalizeCanonicalName` from `lib/ingredients/parser.ts` (lines
118–153).  The two salt/pepper regexes carry `/i`, but the string they are
tested on is the result of `toLowerCase().trim()` and of synonym-map values
(all lower-case), so the flag is inert and the matchers run on the string
as-is. -/
def normalizeCanonicalName (baseName : String) : String :=
  let n0 := jsTrim (jsLower baseName)
  -- Handle plurals - normalize to singular for common cases
  let n1 :=
    if "s".data.isSuffixOf n0.data ∧ ¬ "ss".data.isSuffixOf n0.data ∧
        ¬ "us".data.isSuffixOf n0.data then
      let singular : String := ⟨n0.data.dropLast⟩
      match assocLookup NAME_NORMALIZATION_MAP singular with
      | some v =>
        if v ≠ "" then v
        else match assocLookup NAME_NORMALIZATION_MAP n0 with
          | some w => if w ≠ "" then w else n0
          | none => n0
      | none =>
        match assocLookup NAME_NORMALIZATION_MAP n0 with
        | some w => if w ≠ "" then w else n0
        | none => n0
    else n0
  -- Trim again after removals
  let n2 := jsTrim n1
  -- Apply synonym normalization
  let n3 :=
    match assocLookup NAME_NORMALIZATION_MAP n2 with
    | some v => if v ≠ "" then v else n2
    | none => n2
  -- Special case: salt and pepper variations
  let n4 :=
    if reSaltAndPepper n3.data || reSaltToTaste n3.data then "salt and pepper" else n3
  -- Special case: pepper to taste should become salt and pepper
  if rePepperToTaste n4.data then "salt and pepper" else n4

/-! ## `extractBaseNameAndPrep` (`parser.ts`, lines 83–113) -/

/-- Adverbs of the preparation pattern: `(?:finely|roughly|coarsely)`. -/
def PREP_ADVERBS : List String := ["finely", "roughly", "coarsely"]

/-- Verbs of the preparation pattern, in the regex's alternation order. -/
def PREP_VERBS : List String :=
  ["minced", "chopped", "diced", "sliced", "grated", "crushed", "spiralized",
   "into noodles", "halved", "seeded", "trimmed", "rinsed", "peeled",
   "deveined", "crumbled", "riced", "julienned", "shredded"]

/-- The `\s+and\s+(...)` tail vocabulary of the preparation pattern. -/
def PREP_AND_TAIL : List String :=
  ["seeded", "trimmed", "rinsed", "peeled", "deveined", "crumbled", "sliced", "diced"]

/-- Try a list of literal alternatives in order (case-insensitively), as a
regex alternation does, returning the remainder after the first match. -/
def firstAltCI (alts : List String) (cs : List Char) : Option (List Char) :=
  match alts with
  | [] => none
  | a :: rest => (stripTokenCI a.data cs).orElse (fun _ => firstAltCI rest cs)

/-- The big alternative of the preparation pattern:
`(?:(?:finely|roughly|coarsely)\s+)?VERB(?:\s+and\s+TAIL)?`.  The adverb
group is optional-greedy: the regex first tries to take it. -/
def matchPrepMain (cs : List Char) : Option (List Char) :=
  let afterVerb (r : List Char) : Option (List Char) :=
    (PREP_VERBS.foldr (fun a acc => (stripTokenCI a.data r).orElse (fun _ => acc)) none).map
      (fun rv =>
        -- optional `\s+and\s+(...)` tail, greedy
        match (dropSpaces1 rv).bind (fun r1 =>
                (stripTokenCI "and".data r1).bind (fun r2 =>
                  (dropSpaces1 r2).bind (fun r3 => firstAltCI PREP_AND_TAIL r3))) with
        | some rt => rt
        | none => rv)
  match (firstAltCI PREP_ADVERBS cs).bind (fun r1 =>
          (dropSpaces1 r1).bind afterVerb) with
  | some r => some r
  | none => afterVerb cs

/-- Match the whole preparation pattern at the head of `cs`:
`,\s*( MAIN | for garnish | for serving )`.  Returns
`(consumed, groupStart)`: the total number of characters matched and the
offset at which capture group 1 begins. -/
def matchPrepAt (cs : List Char) : Option (Nat × Nat) :=
  match cs with
  | ',' :: rest =>
    let afterSpaces := rest.dropWhile jsIsSpace
    let gStart := cs.length - afterSpaces.length
    match (matchPrepMain afterSpaces).orElse (fun _ =>
            (stripTokenCI "for garnish".data afterSpaces).orElse (fun _ =>
              stripTokenCI "for serving".data afterSpaces)) with
    | some r => some (cs.length - r.length, gStart)
    | none => none
  | _ => none

/-- Leftmost match of the preparation pattern: returns
`(text before the match, capture group 1, text after the match)`. -/
def findPrep : List Char → Option (List Char × List Char × List Char)
  | [] => none
  | c :: rest =>
    match matchPrepAt (c :: rest) with
    | some (consumed, gStart) =>
      some ([], ((c :: rest).take consumed).drop gStart, (c :: rest).drop consumed)
    | none =>
      match findPrep rest with
      | some (pre, g, post) => some (c :: pre, g, post)
      | none => none

/-- A word alternative of the leading-size-descriptor pattern, followed by
the pattern's `\s+`. -/
def tryWordSpace (w : String) (cs : List Char) : Option (List Char) :=
  (stripTokenCI w.data cs).bind dropSpaces1

/-- `/^(fresh|large|small|medium|organic|dried|boneless|skinless|lean|boneless,\s*skinless)\s+/i`
applied once (alternatives in the regex's order; the composite
`boneless,\s*skinless` alternative is last). -/
def stripLeadingSize (cs : List Char) : List Char :=
  let bonelessSkinless : Option (List Char) :=
    (stripTokenCI "boneless".data cs).bind (fun r1 =>
      match r1 with
      | ',' :: r2 =>
        (stripTokenCI "skinless".data (r2.dropWhile jsIsSpace)).bind dropSpaces1
      | _ => none)
  ((tryWordSpace "fresh" cs).orElse (fun _ =>
    (tryWordSpace "large" cs).orElse (fun _ =>
    (tryWordSpace "small" cs).orElse (fun _ =>
    (tryWordSpace "medium" cs).orElse (fun _ =>
    (tryWordSpace "organic" cs).orElse (fun _ =>
    (tryWordSpace "dried" cs).orElse (fun _ =>
    (tryWordSpace "boneless" cs).orElse (fun _ =>
    (tryWordSpace "skinless" cs).orElse (fun _ =>
    (tryWordSpace "lean" cs).orElse (fun _ => bonelessSkinless)))))))))).getD cs

/-- `/\s+(for garnish|for serving)$/i` applied once: if the list ends with
one of the phrases directly preceded by whitespace, remove the phrase and
the whole preceding whitespace run. -/
def stripTrailingGS (cs : List Char) : List Char :=
  let tryPhrase (ph : List Char) : Option (List Char) :=
    if jsLowerL (cs.drop (cs.length - ph.length)) = ph ∧ ph.length < cs.length then
      let head := cs.take (cs.length - ph.length)
      match head.reverse with
      | c :: _ =>
        if jsIsSpace c then some ((head.reverse.dropWhile jsIsSpace).reverse) else none
      | [] => none
    else none
  ((tryPhrase "for garnish".data).orElse (fun _ => tryPhrase "for serving".data)).getD cs

/-- `/^(juice of|wedges of|wedges from)\s+/i` applied once. -/
def stripLeadingJuice (cs : List Char) : List Char :=
  ((tryWordSpace "juice of" cs).orElse (fun _ =>
    (tryWordSpace "wedges of" cs).orElse (fun _ =>
      tryWordSpace "wedges from" cs))).getD cs

/-- `extractBaseNameAndPrep` from `lib/ingredients/parser.ts` (lines
83–113): returns `(baseName, prepNote)`. -/
def extractBaseNameAndPrep (name : String) : String × Option String :=
  let b0 := jsTrimL name.data
  -- Remove "Optional:" prefix (/^optional:\s*/i)
  let b1 :=
    match stripTokenCI "optional:".data b0 with
    | some r => r.dropWhile jsIsSpace
    | none => b0
  -- Extract the preparation clause (first match of the prep pattern)
  let step2 : List Char × Option String :=
    match findPrep b1 with
    | some (pre, g, post) => (jsTrimL (pre ++ post), some (⟨jsTrimL g⟩ : String))
    | none => (b1, none)
  -- Remove leading size descriptors
  let b3 := stripLeadingSize step2.1
  -- Remove trailing descriptors that weren't caught by the prep pattern
  let b4 := stripTrailingGS b3
  -- Remove common prefixes that don't affect identity
  let b5 := stripLeadingJuice b4
  (⟨jsTrimL b5⟩, step2.2)

/-! ## Line parser (`parser.ts`, lines 227–499) -/

/-- Scan the numeric token `\d+(?:\/\d+)?(?:\.\d+)?` at the head of `cs` and
evaluate it as the JavaScript code does: a string containing `/` is split on
`/` and evaluated as numerator/denominator (a `0/0` fraction is `NaN` and
dropped by the `isNaN` guard; `n/0` is `Infinity`, outside the rational
model, treated as no usable quantity as well); otherwise `parseFloat`.
Returns `(quantity, remainder)`. -/
def scanNumber (cs : List Char) : Option (Option ℚ × List Char) :=
  let intDs := cs.takeWhile Char.isDigit
  if intDs.isEmpty then none
  else
    let r1 := cs.drop intDs.length
    let slashStep : Option (List Char) × List Char :=
      match r1 with
      | '/' :: t =>
        let ds := t.takeWhile Char.isDigit
        if ds.isEmpty then (none, r1) else (some ds, t.drop ds.length)
      | _ => (none, r1)
    let fracStep : Option (List Char) × List Char :=
      match slashStep.2 with
      | '.' :: t =>
        let ds := t.takeWhile Char.isDigit
        if ds.isEmpty then (none, slashStep.2) else (some ds, t.drop ds.length)
      | _ => (none, slashStep.2)
    let q : Option ℚ :=
      match slashStep.1 with
      | some ds =>
        let den := parseDecimalQ ds (fracStep.1.getD [])
        if den = 0 then none else some ((digitsToNat intDs : ℚ) / den)
      | none => some (parseDecimalQ intDs (fracStep.1.getD []))
    some (q, fracStep.2)

/-- The simple pattern
`/^(\d+(?:\/\d+)?(?:\.\d+)?)\s+([a-z]+|lb|oz|…)\s+(.+)$/i`: number,
whitespace, a letter run (every listed alternative is itself a letter run,
so the alternation reduces to `[a-z]+` under `/i`), whitespace, and a
non-empty rest without line terminators (`.` does not match them).  Returns
`(quantity, unit lower-cased, name trimmed)`. -/
def simpleMatchL (cs : List Char) : Option (Option ℚ × String × String) :=
  (scanNumber cs).bind (fun qr =>
    (dropSpaces1 qr.2).bind (fun r2 =>
      let letters := r2.takeWhile Char.isAlpha
      if letters.isEmpty then none
      else
        (dropSpaces1 (r2.drop letters.length)).bind (fun r4 =>
          if !r4.isEmpty ∧ r4.all (fun c => !jsIsLineTerm c) then
            some (qr.1, (⟨jsLowerL letters⟩ : String), (⟨jsTrimL r4⟩ : String))
          else none)))

/-- The no-unit pattern `/^(\d+(?:\/\d+)?(?:\.\d+)?)\s+(.+)$/i`: number,
whitespace, and a non-empty rest without line terminators.  Returns
`(quantity, name trimmed)`. -/
def noUnitMatchL (cs : List Char) : Option (Option ℚ × String) :=
  (scanNumber cs).bind (fun qr =>
    (dropSpaces1 qr.2).bind (fun r2 =>
      if !r2.isEmpty ∧ r2.all (fun c => !jsIsLineTerm c) then
        some (qr.1, (⟨jsTrimL r2⟩ : String))
      else none))

/-- `enrichParsedIngredient` from `lib/ingredients/parser.ts` (lines
203–221). -/
def enrichParsedIngredient (parsed : ParsedIngredient) : ParsedIngredient :=
  let bp := extractBaseNameAndPrep parsed.name
  let canonicalName := normalizeCanonicalName bp.1
  let nu := normalizeUnit parsed.unit parsed.quantity
  { parsed with
    raw := if parsed.originalText ≠ "" then parsed.originalText
           else if parsed.raw ≠ "" then parsed.raw else "",
    baseName := bp.1,
    prepNote := bp.2,
    canonicalName := canonicalName,
    baseUnit := some nu.1,
    quantityInBaseUnits := nu.2 }

/-- `parseIngredientRegex` from `lib/ingredients/parser.ts` (lines
227–308). -/
def parseIngredientRegex (line : String) : Option ParsedIngredient :=
  let trimmed := jsTrim line
  let lowT := jsLowerL trimmed.data
  -- Handle "to taste" or similar non-quantity cases
  if hasSubL "to taste".data lowT || hasSubL "as needed".data lowT ||
      hasSubL "optional".data lowT || hasSubL "for garnish".data lowT then
    some (enrichParsedIngredient
      { name := jsLower trimmed, baseName := "", originalText := trimmed,
        raw := trimmed, canonicalName := "", baseUnit := some "none" })
  else
    -- Simple pattern: number + unit + ingredient name
    match simpleMatchL trimmed.data with
    | some qun =>
      some (enrichParsedIngredient
        { name := qun.2.2, baseName := "", quantity := qun.1,
          unit := some qun.2.1, originalText := trimmed, raw := trimmed,
          canonicalName := "", baseUnit := some "none" })
    | none =>
      -- Pattern without unit: "2 eggs", "3 tomatoes"
      match noUnitMatchL trimmed.data with
      | some qn =>
        some (enrichParsedIngredient
          { name := qn.2, baseName := "", quantity := qn.1, unit := none,
            originalText := trimmed, raw := trimmed, canonicalName := "",
            baseUnit := some "none" })
      | none => none

/-- The minimal fallback record built at `parser.ts` lines 360–367, 373–380
and 454–461: a record carrying only the trimmed line as its name. -/
def mkFallback (line : String) : ParsedIngredient :=
  { name := jsTrim line, baseName := "", originalText := line, raw := line,
    canonicalName := "", baseUnit := some "none" }

/-- `parser.ts` lines 349–354 and 433–440: fill `originalText` and `raw`
from the source line when they are falsy.  In the batched path the source
line is `complexLines[index]`, which may be out of range for a response
longer than the batch (`none` here); assigning JavaScript `undefined` leaves
the field falsy, which the rational model keeps as `""`. -/
def ensureText (p : ParsedIngredient) (line : Option String) : ParsedIngredient :=
  let p1 := if p.originalText = "" then { p with originalText := line.getD "" } else p
  if p1.raw = "" then { p1 with raw := line.getD "" } else p1

/-- `parseIngredient` from `lib/ingredients/parser.ts` (lines 314–382), with
the external text-interpretation call modelled by `oracle` (`none` is a
thrown call or unparseable JSON). -/
def parseIngredient (oracle : Option ParsedIngredient) (line : String)
    (useAI : Bool) : ParsedIngredient :=
  match parseIngredientRegex line with
  | some regexResult => regexResult
  | none =>
    if useAI then
      match oracle with
      | some p => enrichParsedIngredient (ensureText p (some line))
      | none => enrichParsedIngredient (mkFallback line)
    else enrichParsedIngredient (mkFallback line)

/-- `parser.ts` lines 484–488: in the batch-failure path, re-derive
`baseName` when it is falsy. -/
def fixBaseName (p : ParsedIngredient) : ParsedIngredient :=
  if p.baseName = "" then
    { p with baseName := (extractBaseNameAndPrep p.name).1 }
  else p

/-- The index-preserving merge of `parser.ts` lines 446–464 and 475–491:
walk the original lines, taking the next pattern-resolved record for lines
found in `simpleLines` and the next externally-interpreted record (or, when
the response ran short, a freshly enriched fallback — the `|| fallback` at
line 462) otherwise.  The source indexes into arrays; the queues here are
consumed in the same order, and the empty-`sRes` branch is unreachable for
the calls below (the partition produces exactly one simple record per
pattern-resolved line). -/
def recombine (sLines : List String) :
    List ParsedIngredient → List ParsedIngredient → List String →
    List ParsedIngredient
  | _, _, [] => []
  | sRes, cRes, l :: rest =>
    if sLines.contains l then
      match sRes with
      | r :: srest => r :: recombine sLines srest cRes rest
      | [] => enrichParsedIngredient (mkFallback l) :: recombine sLines [] cRes rest
    else
      match cRes with
      | r :: crest => r :: recombine sLines sRes crest rest
      | [] => enrichParsedIngredient (mkFallback l) ::
          recombine sLines sRes [] rest

/-- `parser.ts` lines 433–443: fill in missing text fields per response
index and enrich every batched result, `complexLines[index]` being the
index-aligned unresolved line. -/
def enrichAiResults (cLines : List String) : Nat → List ParsedIngredient →
    List ParsedIngredient
  | _, [] => []
  | i, r :: rest =>
    enrichParsedIngredient (ensureText r (cLines.get? i)) ::
      enrichAiResults cLines (i + 1) rest

/-- `parseIngredients` from `lib/ingredients/parser.ts` (lines 387–499),
with the batched external call modelled by `oracle` (`none` is a thrown call
or unparseable JSON; a JSON object rather than array is wrapped into a
one-element list by the source's `Array.isArray` guard, so every outcome of
a completed call is a list). -/
def parseIngredients (oracle : Option (List ParsedIngredient))
    (lines : List String) (useAI : Bool) : List ParsedIngredient :=
  -- Separate simple and complex lines
  let sLines := lines.filter (fun l => (parseIngredientRegex l).isSome)
  let cLines := lines.filter (fun l => (parseIngredientRegex l).isNone)
  let sRes := lines.filterMap parseIngredientRegex
  -- Parse complex lines with AI in batch
  if cLines.length > 0 ∧ useAI then
    match oracle with
    | some aiResults =>
      recombine sLines sRes (enrichAiResults cLines 0 aiResults) lines
    | none =>
      -- Fallback: parse remaining lines individually
      let fallbackResults := cLines.map (fun l => parseIngredient none l false)
      recombine sLines sRes
        (fallbackResults.map (fun f => enrichParsedIngredient (fixBaseName f)))
        lines
  else
    -- If no AI or no complex lines, return simple results
    sRes

/-! ## Aggregator (`lib/ingredients/aggregator.ts`) -/

/-- `formatQuantity` from `lib/ingredients/aggregator.ts` (lines 9–36).
`Math.floor` is `Int.floor`; the `%`-remainder branches of the source return
the same record as the zero-remainder branches for tbsp (remainder
discarded) and fall back to teaspoons for tsp. -/
def formatQuantity (totalQuantity : Option ℚ) (baseUnit : String)
    (name : String) : Option ℚ × Option String :=
  if baseUnit = "none" ∨ totalQuantity = none then (none, none)
  else
    let q := totalQuantity.getD 0
    -- Convert tbsp to cups if >= 16
    if baseUnit = "tbsp" ∧ 16 ≤ q then
      let cups : ℚ := (⌊q / 16⌋ : ℤ)
      let remainingTbsp := q - 16 * (⌊q / 16⌋ : ℤ)
      if remainingTbsp = 0 then
        (some cups, some (if cups = 1 then "cup" else "cups"))
      else
        -- still show as cups (remainder discarded)
        (some cups, some (if cups = 1 then "cup" else "cups"))
    -- Convert tsp to tbsp if >= 3
    else if baseUnit = "tsp" ∧ 3 ≤ q then
      let tbsp : ℚ := (⌊q / 3⌋ : ℤ)
      let remainingTsp := q - 3 * (⌊q / 3⌋ : ℤ)
      if remainingTsp = 0 then (some tbsp, some "tbsp")
      else (some q, some "tsp")
    else if baseUnit = "tsp" then (some q, some "tsp")
    else if baseUnit = "tbsp" then (some q, some "tbsp")
    else if baseUnit = "cup" then
      (some q, some (if q = 1 then "cup" else "cups"))
    else if baseUnit = "unit" then (some q, some "")
    else (none, none)

/-- The aggregator's local `normalizeCanonicalName` fallback
(`aggregator.ts` lines 260–262). -/
def aggFallbackCanonical (name : String) : String := jsTrim (jsLower name)

/-- Split a character list on the single character `' '`
(`String.prototype.split(" ")`: empty segments are kept, and the empty
string yields one empty segment). -/
def splitOnSpaceL : List Char → List (List Char)
  | [] => [[]]
  | c :: rest =>
    let r := splitOnSpaceL rest
    if c = ' ' then [] :: r else (c :: r.headD []) :: r.tail

/-- Join word segments with single spaces (`Array.prototype.join(" ")`). -/
def joinWithSpace : List (List Char) → List Char
  | [] => []
  | [w] => w
  | w :: rest => w ++ ' ' :: joinWithSpace rest

/-- `formatDisplayName` from `lib/ingredients/aggregator.ts` (lines
267–284): fixed override for the salt/pepper key, otherwise title-case the
base name (capitalize the first word and every word longer than three
characters; `charAt(0).toUpperCase() + slice(1)` on the empty word is the
empty word). -/
def formatDisplayName (canonicalName baseName : String) : String :=
  if canonicalName = "salt and pepper" then "Salt and black pepper"
  else
    let words := splitOnSpaceL baseName.data
    let capitalized := words.enum.map (fun wi =>
      if wi.1 = 0 ∨ 3 < wi.2.length then
        match wi.2 with
        | [] => []
        | c :: rest => c.toUpper :: rest
      else wi.2)
    ⟨joinWithSpace capitalized⟩

/-- The grouping key of `aggregateIngredients` (`aggregator.ts` lines
130–135): `canonicalName || normalizeCanonicalName(baseName || name)`, then
`"::"`, then `baseUnit || "none"`. -/
def groupKeyStr (ing : ParsedIngredient) : String :=
  let canonical := if ing.canonicalName ≠ "" then ing.canonicalName
    else aggFallbackCanonical (if ing.baseName ≠ "" then ing.baseName else ing.name)
  let baseUnit := if strTruthy ing.baseUnit then ing.baseUnit.getD "" else "none"
  canonical ++ "::" ++ baseUnit

/-- Keys in first-occurrence order, accumulating the keys already seen. -/
def firstDedupGo (seen : List String) : List String → List String
  | [] => []
  | k :: rest =>
    if seen.contains k then firstDedupGo seen rest
    else k :: firstDedupGo (k :: seen) rest

/-- Keys in first-occurrence order — the iteration order of the JavaScript
`Map` filled by the grouping loop (`aggregator.ts` lines 137–146). -/
def firstDedup (l : List String) : List String := firstDedupGo [] l

/-- Split a character list on the separator `"::"`
(`String.prototype.split("::")`, scanning left to right). -/
def splitOnColons : List Char → List (List Char)
  | [] => [[]]
  | ':' :: ':' :: rest => [] :: splitOnColons rest
  | c :: rest =>
    match splitOnColons rest with
    | [] => [[c]]
    | h :: t => (c :: h) :: t

/-- Build one `AggregatedIngredient` from a group (`aggregator.ts` lines
150–252).  `ingredients` is the group's member list in input order (the
`Map` entry), never empty for the keys produced by the grouping loop. -/
def buildEntry (key : String) (ingredients : List ParsedIngredient) :
    AggregatedIngredient :=
  let parts := splitOnColons key.data
  let canonicalName : String := ⟨(parts.get? 0).getD []⟩
  let baseUnit : String := ⟨(parts.get? 1).getD []⟩
  let itemsWithQuantity := ingredients.filter
    (fun ing => ing.quantityInBaseUnits ≠ none)
  let itemsWithoutQuantity := ingredients.filter
    (fun ing => ing.quantityInBaseUnits = none)
  let totalQuantity : Option ℚ :=
    if itemsWithQuantity.length > 0 then
      some ((itemsWithQuantity.map (fun ing => ing.quantityInBaseUnits.getD 0)).sum)
    else none
  let first := ingredients.headD default
  let baseName := if first.baseName ≠ "" then first.baseName else first.name
  let displayName := formatDisplayName canonicalName baseName
  let fq := formatQuantity totalQuantity baseUnit displayName
  -- For unit-based items, preserve the original unit string
  let displayUnit : Option String :=
    if baseUnit = "unit" ∧ strTruthy first.unit then first.unit
    else if baseUnit = "unit" ∧ strTruthy fq.2 = false then some ""
    else fq.2
  -- Special handling for "salt and pepper"
  if canonicalName = "salt and pepper" then
    { name := displayName, canonicalName := canonicalName,
      baseName := first.baseName, totalQuantity := none, unit := none,
      baseUnit := "none", lines := ingredients, «section» := "Spices" }
  else if itemsWithQuantity.length > 0 ∧ itemsWithoutQuantity.length = 0 then
    -- All items have quantities - aggregate normally
    { name := displayName, canonicalName := canonicalName,
      baseName := first.baseName, totalQuantity := totalQuantity,
      unit := displayUnit, baseUnit := baseUnit, lines := ingredients,
      «section» := "Other" }
  else if itemsWithQuantity.length = 0 ∧ itemsWithoutQuantity.length > 0 then
    -- No items have quantities - single entry without quantity
    { name := displayName, canonicalName := canonicalName,
      baseName := first.baseName, totalQuantity := none, unit := none,
      baseUnit := "none", lines := ingredients, «section» := "Other" }
  else
    -- Mixed - show totalQuantity if available, but keep all lines
    { name := displayName, canonicalName := canonicalName,
      baseName := first.baseName, totalQuantity := totalQuantity,
      unit := displayUnit, baseUnit := baseUnit, lines := ingredients,
      «section» := "Other" }

/-- `aggregateIngredients` from `lib/ingredients/aggregator.ts` (lines
126–255).  The source fills an insertion-ordered `Map` and then builds one
entry per key: the keys appear in first-occurrence order and each group
holds its members in input order, i.e. the group of `k` is
`parsed.filter (groupKeyStr · = k)`. -/
def aggregateIngredients (parsed : List ParsedIngredient) :
    List AggregatedIngredient :=
  (firstDedup (parsed.map groupKeyStr)).map (fun k =>
    buildEntry k (parsed.filter (fun ing => groupKeyStr ing = k)))

/-! ## Categorizer (`lib/ingredients/categorizer.ts`) -/

/-- The prep vocabulary of `normalizeForAICategorization`
(`categorizer.ts` lines 27–32), in order. -/
def PREP_CAT_WORDS : List String :=
  ["minced", "chopped", "diced", "sliced", "grated", "zested", "juiced",
   "halved", "seeded", "spiralized", "rinsed", "drained", "for garnish",
   "optional", "pitted", "trimmed", "peeled", "deveined", "crumbled",
   "riced", "for serving", "cut into", "thick slices", "thin slices"]

/-- The unit alternation of the quantity-stripping regex
(`categorizer.ts` line 42), in order. -/
def CAT_UNITS : List String :=
  ["oz", "lb", "lbs", "cup", "cups", "tbsp", "tsp", "tablespoon", "teaspoon",
   "clove", "cloves", "head", "heads", "bunch", "bunches", "can", "cans",
   "fillet", "fillets", "breast", "breasts", "inch", "inches"]

/-- A regex word character (`\w`), for `\b` boundaries. -/
def isWordChar (c : Char) : Bool := c.isAlphanum || c = '_'

/-- Global `/\([^)]*\)/g` removal: drop every `(`-to-next-`)` span; a `(`
with no closing `)` stays.  Fuel is the list length (every step consumes at
least one character). -/
def removeParensGo : Nat → List Char → List Char
  | 0, cs => cs
  | _ + 1, [] => []
  | fuel + 1, c :: rest =>
    if c = '(' then
      let before := rest.takeWhile (fun x => x ≠ ')')
      match rest.drop before.length with
      | ')' :: tail => removeParensGo fuel tail
      | _ => c :: removeParensGo fuel rest
    else c :: removeParensGo fuel rest

/-- Global case-insensitive `\bw\b` removal (`String.replace` with `gi`).
`prevWord` tracks whether the previous character was a word character (so
`\b` holds exactly when it is `false`); after a removed match the previous
character is the match's last letter, so `prevWord` becomes `true`. -/
def replaceWordGo (w : List Char) : Nat → Bool → List Char → List Char
  | 0, _, cs => cs
  | _ + 1, _, [] => []
  | fuel + 1, prevWord, c :: rest =>
    let here := c :: rest
    let boundaryAfter : Bool :=
      match here.drop w.length with
      | [] => true
      | d :: _ => !isWordChar d
    if prevWord = false ∧ jsLowerL (here.take w.length) = w ∧ boundaryAfter then
      replaceWordGo w fuel true (here.drop w.length)
    else c :: replaceWordGo w fuel (isWordChar c) rest

/-- `/^\d+(\.\d+)?\s*/` removal (effectively applied once: `^` without `m`
cannot match after the first replacement). -/
def stripLeadingNum (cs : List Char) : List Char :=
  let ds := cs.takeWhile Char.isDigit
  if ds.isEmpty then cs
  else
    let r1 := cs.drop ds.length
    let r2 :=
      match r1 with
      | '.' :: t =>
        let fs := t.takeWhile Char.isDigit
        if fs.isEmpty then r1 else t.drop fs.length
      | _ => r1
    r2.dropWhile jsIsSpace

/-- Match `\s*\d+(\.\d+)?\s*(oz|lb|…)\s*` at the head of `cs`, returning the
number of characters consumed. -/
def matchNumUnitAt (cs : List Char) : Option Nat :=
  let r1 := cs.dropWhile jsIsSpace
  let ds := r1.takeWhile Char.isDigit
  if ds.isEmpty then none
  else
    let r2 := r1.drop ds.length
    let r3 :=
      match r2 with
      | '.' :: t =>
        let fs := t.takeWhile Char.isDigit
        if fs.isEmpty then r2 else t.drop fs.length
      | _ => r2
    match firstAltCI CAT_UNITS (r3.dropWhile jsIsSpace) with
    | some r5 => some (cs.length - (r5.dropWhile jsIsSpace).length)
    | none => none

/-- Global removal of `\s*\d+(\.\d+)?\s*(oz|lb|…)\s*`. -/
def removeNumUnitsGo : Nat → List Char → List Char
  | 0, cs => cs
  | _ + 1, [] => []
  | fuel + 1, c :: rest =>
    match matchNumUnitAt (c :: rest) with
    | some n =>
      if n = 0 then c :: removeNumUnitsGo fuel rest
      else removeNumUnitsGo fuel ((c :: rest).drop n)
    | none => c :: removeNumUnitsGo fuel rest

/-- Match `\s*\d+\/\d+\s*` at the head of `cs`, returning the number of
characters consumed. -/
def matchFracAt (cs : List Char) : Option Nat :=
  let r1 := cs.dropWhile jsIsSpace
  let ds := r1.takeWhile Char.isDigit
  if ds.isEmpty then none
  else
    match r1.drop ds.length with
    | '/' :: t =>
      let ds2 := t.takeWhile Char.isDigit
      if ds2.isEmpty then none
      else some (cs.length - ((t.drop ds2.length).dropWhile jsIsSpace).length)
    | _ => none

/-- Global removal of `\s*\d+\/\d+\s*`. -/
def removeFracsGo : Nat → List Char → List Char
  | 0, cs => cs
  | _ + 1, [] => []
  | fuel + 1, c :: rest =>
    match matchFracAt (c :: rest) with
    | some n =>
      if n = 0 then c :: removeFracsGo fuel rest
      else removeFracsGo fuel ((c :: rest).drop n)
    | none => c :: removeFracsGo fuel rest

/-- Global `/\s+/g → " "` collapse. -/
def collapseSpacesGo : Nat → List Char → List Char
  | 0, cs => cs
  | _ + 1, [] => []
  | fuel + 1, c :: rest =>
    if jsIsSpace c then ' ' :: collapseSpacesGo fuel (rest.dropWhile jsIsSpace)
    else c :: collapseSpacesGo fuel rest

/-- `normalizeForAICategorization` from `lib/ingredients/categorizer.ts`
(lines 11–52). -/
def normalizeForAICategorization (raw : String) : String :=
  let n0 := jsTrimL raw.data
  -- Remove "Optional:" prefix
  let n1 :=
    match stripTokenCI "optional:".data n0 with
    | some r => r.dropWhile jsIsSpace
    | none => n0
  -- Remove everything in parentheses
  let n2 := removeParensGo n1.length n1
  -- Remove text after comma
  let n3 := n2.takeWhile (fun c => c ≠ ',')
  -- Remove common prep words/phrases
  let n4 := PREP_CAT_WORDS.foldl (fun acc w => replaceWordGo w.data acc.length false acc) n3
  -- Remove quantities and units
  let n5 := stripLeadingNum n4
  let n6 := removeNumUnitsGo n5.length n5
  let n7 := removeFracsGo n6.length n6
  -- Clean up extra whitespace, trim, lowercase
  let n8 := collapseSpacesGo n7.length n7
  jsLower (jsTrim ⟨n8⟩)

/-- `postProcessSection` from `lib/ingredients/categorizer.ts` (lines
58–122): the deterministic override table, checked in source order against
the display name and (where the source does) the canonical name. -/
def postProcessSection (name : String) (aiSection : String)
    (canonicalName : Option String := none) : String :=
  let text := jsLower name
  let canonicalText := (canonicalName.map jsLower).getD ""
  let inc := fun (needle : String) =>
    strIncludes text needle || strIncludes canonicalText needle
  let incT := fun (needle : String) => strIncludes text needle
  -- Produce - MUST check before any spice checks
  if inc "bell pepper" then "Produce"
  -- Meat/Fish
  else if inc "salmon" then "Meat/Fish"
  else if inc "shrimp" then "Meat/Fish"
  else if inc "chicken" then "Meat/Fish"
  else if inc "beef" then "Meat/Fish"
  else if inc "pork" then "Meat/Fish"
  else if inc "turkey" ∧ !incT "broth" ∧ !strIncludes canonicalText "broth" then "Meat/Fish"
  else if inc "fish" ∧ !incT "sauce" ∧ !strIncludes canonicalText "sauce" then "Meat/Fish"
  -- Produce (continued)
  else if inc "zucchini" then "Produce"
  else if inc "onion" ∧ !incT "powder" ∧ !strIncludes canonicalText "powder" then "Produce"
  else if inc "garlic" ∧ !incT "powder" ∧ !strIncludes canonicalText "powder" then "Produce"
  else if inc "lemon" then "Produce"
  else if inc "lime" then "Produce"
  else if inc "cilantro" then "Produce"
  else if inc "parsley" then "Produce"
  else if inc "basil" then "Produce"
  else if inc "broccoli" then "Produce"
  else if inc "spinach" then "Produce"
  else if inc "carrot" then "Produce"
  else if inc "tomato" ∧ !incT "paste" ∧ !strIncludes canonicalText "paste" then "Produce"
  else if inc "lettuce" then "Produce"
  else if inc "cucumber" then "Produce"
  else if inc "avocado" then "Produce"
  else if inc "cauliflower" then "Produce"
  else if inc "snap pea" then "Produce"
  else if inc "green onion" then "Produce"
  -- Dairy
  else if incT "parmesan" then "Dairy"
  else if incT "feta" then "Dairy"
  else if incT "mozzarella" then "Dairy"
  else if incT "cheese" ∧ !incT "sauce" then "Dairy"
  -- Pantry
  else if incT "olive oil" then "Pantry"
  else if incT "sesame oil" then "Pantry"
  else if incT "coconut oil" then "Pantry"
  else if incT "vinegar" then "Pantry"
  else if incT "broth" then "Pantry"
  else if incT "stock" then "Pantry"
  else if incT "coconut milk" then "Pantry"
  else if incT "fish sauce" then "Pantry"
  else if incT "soy sauce" then "Pantry"
  -- Spices (only if not already overridden above)
  else if incT "cumin" || incT "paprika" || incT "turmeric" || incT "cinnamon" ||
      incT "chili" || incT "coriander" || incT "garlic powder" || incT "onion powder" then
    "Spices"
  else aiSection

/-- `categorizeIngredient` from `lib/ingredients/categorizer.ts` (lines
167–212), the classification call modelled by `oracle` (`none` is a failed
call or unrecoverable JSON).  The catch path passes no canonical name to
`postProcessSection`, exactly as the source does. -/
def categorizeIngredient (oracle : Option (List (String × String)))
    (name : String) (useAI : Bool)
    (canonicalName : Option String := none)
    (baseName : Option String := none) : String :=
  let ingredientName :=
    if strTruthy canonicalName then canonicalName.getD ""
    else if strTruthy baseName then baseName.getD "" else name
  if useAI = false then postProcessSection name "Other" none
  else
    match oracle with
    | some categories =>
      let normalizedForAI := normalizeForAICategorization ingredientName
      let aiSection :=
        match assocLookup categories (jsLower normalizedForAI) with
        | some v => if v ≠ "" then v else "Other"
        | none => "Other"
      postProcessSection name aiSection
        (if strTruthy canonicalName then canonicalName else baseName)
    | none => postProcessSection name "Other" none

/-- The element type of the optional `ingredients` argument of
`categorizeIngredients`. -/
structure IngInfo where
  name : String
  canonicalName : Option String := none
  baseName : Option String := none
  deriving DecidableEq, Repr

/-- `categorizeIngredients` from `lib/ingredients/categorizer.ts` (lines
219–292), the batched classification call modelled by `oracle`.  The result
`Map` is modelled as the association list of `(name, section)` pairs in
iteration order (`result.set(name, …)` once per name; duplicate names
overwrite with the identical recomputed value). -/
def categorizeIngredients (oracle : Option (List (String × String)))
    (names : List String) (useAI : Bool)
    (ingredients : Option (List IngInfo) := none) : List (String × String) :=
  if useAI = false ∨ names.length = 0 then
    -- If AI is disabled or no ingredients, return "Other" for all
    names.map (fun n => (n, "Other"))
  else
    match oracle with
    | some categories =>
      names.map (fun name =>
        let ingredient := (ingredients.getD []).find? (fun ing => ing.name = name)
        let cleanest :=
          match ingredient with
          | some ing =>
            if strTruthy ing.canonicalName then ing.canonicalName.getD ""
            else if strTruthy ing.baseName then ing.baseName.getD "" else name
          | none => name
        let normalized := normalizeForAICategorization cleanest
        let aiSection :=
          match assocLookup categories (jsLower normalized) with
          | some v => if v ≠ "" then v else "Other"
          | none => "Other"
        let canonicalName :=
          match ingredient with
          | some ing =>
            if strTruthy ing.canonicalName then ing.canonicalName else ing.baseName
          | none => none
        (name, postProcessSection name aiSection canonicalName))
    | none =>
      -- Fallback: use "Other" for all
      names.map (fun n => (n, "Other"))

/-! ## Concrete records and auxiliary definitions used by the theorems -/

/-- The pre-enrichment record `parseIngredientRegex` builds for
`"2 cups olive oil"` (quantity still in scanner form). -/
def preRecTwoCups : ParsedIngredient :=
  { name := "olive oil", baseName := "",
    quantity := some (parseDecimalQ ['2'] []), unit := some "cups",
    originalText := "2 cups olive oil", raw := "2 cups olive oil",
    canonicalName := "", baseUnit := some "none" }

/-- The parsed record for `"2 cups olive oil"`: 2 cups = 32 tbsp. -/
def recTwoCups : ParsedIngredient :=
  { raw := "2 cups olive oil", name := "olive oil", baseName := "olive oil",
    prepNote := none, canonicalName := "olive oil", quantity := some 2,
    unit := some "cups", baseUnit := some "tbsp",
    quantityInBaseUnits := some (2 * 16), notes := none,
    originalText := "2 cups olive oil" }

/-- The pre-enrichment record `parseIngredientRegex` builds for
`"1 cup olive oil"`. -/
def preRecOneCup : ParsedIngredient :=
  { name := "olive oil", baseName := "",
    quantity := some (parseDecimalQ ['1'] []), unit := some "cup",
    originalText := "1 cup olive oil", raw := "1 cup olive oil",
    canonicalName := "", baseUnit := some "none" }

/-- The parsed record for `"1 cup olive oil"`: 1 cup = 16 tbsp. -/
def recOneCup : ParsedIngredient :=
  { raw := "1 cup olive oil", name := "olive oil", baseName := "olive oil",
    prepNote := none, canonicalName := "olive oil", quantity := some 1,
    unit := some "cup", baseUnit := some "tbsp",
    quantityInBaseUnits := some (1 * 16), notes := none,
    originalText := "1 cup olive oil" }

/-- The pre-enrichment record `parseIngredientRegex` builds for
`"0 cups milk"`. -/
def preRecZeroCups : ParsedIngredient :=
  { name := "milk", baseName := "",
    quantity := some (parseDecimalQ ['0'] []), unit := some "cups",
    originalText := "0 cups milk", raw := "0 cups milk",
    canonicalName := "", baseUnit := some "none" }

/-- The parsed record for `"0 cups milk"`: the recognized unit `cups` and
the numeric quantity `0` are both present, yet `quantityInBaseUnits` is
`undefined` — the JavaScript truthiness test `!quantity` treats `0` as
absent. -/
def recZeroCups : ParsedIngredient :=
  { raw := "0 cups milk", name := "milk", baseName := "milk",
    prepNote := none, canonicalName := "milk", quantity := some 0,
    unit := some "cups", baseUnit := some "none",
    quantityInBaseUnits := none, notes := none,
    originalText := "0 cups milk" }

/-- An external-interpretation response whose `unit` is a single space:
truthy in JavaScript, but trimming to the unit table's `""` entry. -/
def aiSpaceUnit : ParsedIngredient :=
  { raw := "", name := "chicken broth", baseName := "", canonicalName := "",
    quantity := some 1, unit := some " ", originalText := "" }

/-- A second whitespace-unit external response (two spaces, quantity 2). -/
def aiSpaceUnitTwo : ParsedIngredient :=
  { raw := "", name := "beefy mixture", baseName := "", canonicalName := "",
    quantity := some 2, unit := some "  ", originalText := "" }

/-- An external response with a quantity but no unit token. -/
def aiCountOnly : ParsedIngredient :=
  { raw := "", name := "mystery item", baseName := "", canonicalName := "",
    quantity := some 2, unit := none, originalText := "" }

/-- An external response with a `tbsp` unit and quantity 3. -/
def aiTbspOnly : ParsedIngredient :=
  { raw := "", name := "mystery liquid", baseName := "", canonicalName := "",
    quantity := some 3, unit := some "tbsp", originalText := "" }

/-- Two records sharing the grouping key `zucchini::unit` but with
different base names (both reachable from the Name Normalizer:
`"zucchini noodles"` and `"zucchinis"` canonicalize to `"zucchini"`). -/
def zNoodles : ParsedIngredient :=
  { raw := "1 zucchini noodles", name := "zucchini noodles",
    baseName := "zucchini noodles", canonicalName := "zucchini",
    quantity := some 1, unit := none, baseUnit := some "unit",
    quantityInBaseUnits := some 1, originalText := "1 zucchini noodles" }

/-- See `zNoodles`. -/
def zPlural : ParsedIngredient :=
  { raw := "1 zucchinis", name := "zucchinis", baseName := "zucchinis",
    canonicalName := "zucchini", quantity := some 1, unit := none,
    baseUnit := some "unit", quantityInBaseUnits := some 1,
    originalText := "1 zucchinis" }

/-- The order-insensitive projection of an `AggregatedIngredient`: grouping
key parts, total quantity and section (the `name` and `unit` fields are
taken from the group's first contributor and are *not* order-insensitive —
see the C9 counterexample). -/
def entryKeyData (e : AggregatedIngredient) : String × String × Option ℚ × String :=
  (e.canonicalName, e.baseUnit, e.totalQuantity, e.«section»)

/-- The number of lines before position `i` that need external
interpretation (the rank of line `i` within `complexLines`). -/
def rankComplex (lines : List String) (i : Nat) : Nat :=
  ((lines.take i).filter (fun l => (parseIngredientRegex l).isNone)).length

/-- What the batch contract promises for position `i` of
`parseIngredients oracle lines true`: the pattern-resolved record of line
`i` when the line is pattern-resolved; otherwise the enriched external
answer aligned with line `i`'s rank among the unresolved lines (or the
enriched minimal fallback record for line `i` when the response ran short
or the call failed). -/
def expectedAt (oracle : Option (List ParsedIngredient))
    (lines : List String) (i : Nat) : ParsedIngredient :=
  let l := lines.getD i ""
  match parseIngredientRegex l with
  | some r => r
  | none =>
    let cLines := lines.filter (fun l' => (parseIngredientRegex l').isNone)
    match oracle with
    | some aiResults =>
      ((enrichAiResults cLines 0 aiResults).get? (rankComplex lines i)).getD
        (enrichParsedIngredient (mkFallback l))
    | none =>
      enrichParsedIngredient (fixBaseName (parseIngredient none l false))

/-! ## Helper lemmas -/

theorem dropWhile_dropWhile_self {α : Type} (p : α → Bool) (l : List α) :
    (l.dropWhile p).dropWhile p = l.dropWhile p := by
  induction l with
  | nil => rfl
  | cons a t ih =>
    by_cases h : p a
    · simp [List.dropWhile_cons, h, ih]
    · simp [List.dropWhile_cons, h]

theorem jsTrimL_idem (cs : List Char) : jsTrimL (jsTrimL cs) = jsTrimL cs := by
  unfold jsTrimL
  set y := cs.dropWhile jsIsSpace with hy
  set z := y.reverse.dropWhile jsIsSpace with hz
  have hzz : z.dropWhile jsIsSpace = z := by
    rw [hz, dropWhile_dropWhile_self]
  have hty : z.reverse <+: y := by
    rw [← List.reverse_suffix, List.reverse_reverse]
    exact List.dropWhile_suffix _
  have hyy : y.dropWhile jsIsSpace = y := by
    rw [hy, dropWhile_dropWhile_self]
  have htt : z.reverse.dropWhile jsIsSpace = z.reverse := by
    rcases hty with ⟨r, hr⟩
    cases hzr : z.reverse with
    | nil => simp
    | cons a t =>
      have ha : ¬ jsIsSpace a := by
        have : y.dropWhile jsIsSpace = y := hyy
        rw [← hr, hzr] at this
        by_contra hsp
        simp only [List.cons_append, List.dropWhile_cons, hsp, if_true] at this
        have := congrArg List.length this
        simp at this
        have hle := (List.dropWhile_sublist (l := t ++ r) jsIsSpace).length_le
        simp at hle
        omega
      rw [List.dropWhile_cons, if_neg (by simp [ha])]
  rw [htt, List.reverse_reverse, hzz]

theorem jsTrim_idem (s : String) : jsTrim (jsTrim s) = jsTrim s := by
  simp [jsTrim, jsTrimL_idem]

theorem assocLookup_mem {α : Type} {l : List (String × α)} {k : String} {v : α}
    (h : assocLookup l k = some v) : (k, v) ∈ l := by
  induction l with
  | nil => simp [assocLookup] at h
  | cons p rest ih =>
    obtain ⟨k', v'⟩ := p
    rw [assocLookup] at h
    split at h
    · cases h
      rename_i heq
      subst heq
      exact List.mem_cons_self _ _
    · exact List.mem_cons_of_mem _ (ih h)

/-! ## C4 and C5: batch classification failure skips the override table -/

/-- **C4** (code bug): when the whole batched classification call fails,
`categorizeIngredients` does NOT fall through to the stage-2 deterministic
override table — it assigns the raw default `"Other"` to every name, even
when an override keyword matches.  For `"bell pepper"` the override table
answers `"Produce"`, yet the batch failure path returns `"Other"`.  The
repository's own test (`tests/unit/ingredients.categorizer.test.ts`, the
"batch categorization" salmon case) expects the overrides to apply on the
AI-free batch path and therefore fails against this code.  The function
still never throws: it returns a complete map (second conjunct). -/
theorem C4_batch_failure_all_other :
    categorizeIngredients none ["bell pepper"] true
        (some [{ name := "bell pepper", canonicalName := some "bell pepper" }]) =
      [("bell pepper", "Other")] ∧
    postProcessSection "bell pepper" "Other" none = "Produce" ∧
    categorizeIngredients (some []) ["4 salmon Fillets (about 6 oz Each)"] false
        (some [{ name := "4 salmon Fillets (about 6 oz Each)",
                 canonicalName := some "salmon",
                 baseName := some "salmon fillets" }]) =
      [("4 salmon Fillets (about 6 oz Each)", "Other")] := by
  refine ⟨by decide, by decide, by decide⟩

/-- **C5** (code bug): an ingredient whose display name (or canonical name)
contains `"bell pepper"` is NOT always categorized as `"Produce"`: when the
external classification call fails, the batch path returns `"Other"` for
`"4 large bell peppers"`, and the single-ingredient catch path drops the
canonical name, returning `"Other"` for a record whose canonical name
`"bell pepper"` is the only carrier of the keyword.  (On a successful call
the override does win for every stage-1 answer — third conjunct, quantified
over every response table.) -/
theorem C5_bell_pepper_failure_not_produce :
    (categorizeIngredients none ["4 large bell peppers"] true
        (some [{ name := "4 large bell peppers",
                 canonicalName := some "bell pepper" }]) =
      [("4 large bell peppers", "Other")]) ∧
    (categorizeIngredient none "red peppers, any color" true
        (some "bell pepper") none = "Other") ∧
    (∀ categories : List (String × String),
      categorizeIngredient (some categories) "4 large bell peppers" true
        (some "bell pepper") none = "Produce") := by
  refine ⟨by decide, by decide, fun categories => ?_⟩
  have hpp : ∀ ai, postProcessSection "4 large bell peppers" ai
      (some "bell pepper") = "Produce" := by
    intro ai
    have : strIncludes (jsLower "4 large bell peppers") "bell pepper" = true := by
      decide
    simp only [postProcessSection]
    rw [if_pos]
    simp [this]
  simp only [categorizeIngredient]
  rw [if_neg (by simp)]
  exact hpp _

/-! ## Bridge lemmas: concrete parses with literal quantities -/

theorem parseDecimalQ_two : parseDecimalQ ['2'] [] = 2 := by
  norm_num [parseDecimalQ, show digitsToNat ['2'] = 2 from by decide,
    show digitsToNat [] = 0 from rfl]

theorem parseDecimalQ_one : parseDecimalQ ['1'] [] = 1 := by
  norm_num [parseDecimalQ, show digitsToNat ['1'] = 1 from by decide,
    show digitsToNat [] = 0 from rfl]

theorem parseDecimalQ_zero : parseDecimalQ ['0'] [] = 0 := by
  norm_num [parseDecimalQ, show digitsToNat ['0'] = 0 from by decide,
    show digitsToNat [] = 0 from rfl]

theorem parse_two_cups :
    parseIngredientRegex "2 cups olive oil" = some recTwoCups := by
  rw [show parseIngredientRegex "2 cups olive oil" =
        some (enrichParsedIngredient preRecTwoCups) from rfl,
    show preRecTwoCups = { preRecTwoCups with quantity := some 2 } from by
      simp only [preRecTwoCups, parseDecimalQ_two]]
  rfl

theorem parse_one_cup :
    parseIngredientRegex "1 cup olive oil" = some recOneCup := by
  rw [show parseIngredientRegex "1 cup olive oil" =
        some (enrichParsedIngredient preRecOneCup) from rfl,
    show preRecOneCup = { preRecOneCup with quantity := some 1 } from by
      simp only [preRecOneCup, parseDecimalQ_one]]
  rfl

theorem parse_zero_cups :
    parseIngredientRegex "0 cups milk" = some recZeroCups := by
  rw [show parseIngredientRegex "0 cups milk" =
        some (enrichParsedIngredient preRecZeroCups) from rfl,
    show preRecZeroCups = { preRecZeroCups with quantity := some 0 } from by
      simp only [preRecZeroCups, parseDecimalQ_zero]]
  rfl

/-! ## C1: Unit-Table conversions -/

/-- **C1** (amended): for every unit token recognized by the Unit Table
(i.e. whose lower-cased, trimmed form is a table key other than the empty
string) and every *nonzero* quantity, `normalizeUnit` returns the table's
base unit (volume collapsed to `tbsp` for cups) and the quantity times the
conversion factor (16 for cups into tbsp, 1 for everything else); and a
pattern-resolved line is answered without consulting the external
interpretation call (second conjunct: the result is the regex parse for
every oracle).  The original claim, which admits quantity `0`, is refuted
by `C1_zero_quantity_counterexample`. -/
theorem C1_unit_conversion_amended :
    (∀ (u : String) (q : ℚ) (info : UnitInfo),
      assocLookup UNIT_MAP (jsTrim (jsLower u)) = some info →
      info.baseUnit ≠ "none" → q ≠ 0 →
      normalizeUnit (some u) (some q) =
        ((if info.baseUnit = "cup" then "tbsp" else info.baseUnit),
         some (q * (if info.baseUnit = "cup" then (16 : ℚ) else 1)))) ∧
    (∀ (oracle : Option ParsedIngredient) (line : String)
      (r : ParsedIngredient),
      parseIngredientRegex line = some r →
      parseIngredient oracle line true = r) := by
  constructor
  · intro u q info hlook hbu hq
    have hu : u ≠ "" := by
      rintro rfl
      rw [show assocLookup UNIT_MAP (jsTrim (jsLower "")) =
            some ⟨"none", 1⟩ from rfl] at hlook
      cases hlook
      exact hbu rfl
    unfold normalizeUnit
    rw [if_neg, if_neg]
    · simp only [Option.getD_some]
      rw [hlook]
      dsimp only
      split_ifs with hcup h1 h2
      · simp [hcup]
      · simp [h1]
      · simp [h2]
      · simp
    · rintro (h | h)
      · simp [strTruthy, hu] at h
      · simp [numTruthy, hq] at h
    · rintro ⟨h, -⟩
      simp [strTruthy, hu] at h
  · intro oracle line r h
    unfold parseIngredient
    rw [h]

/-- Witness for `C1_unit_conversion_amended`: 2 cups become 32 tbsp, without
any external call. -/
theorem C1_unit_conversion_witness :
    normalizeUnit (some "cups") (some 2) = ("tbsp", some 32) ∧
    parseIngredient none "2 cups olive oil" true = recTwoCups := by
  constructor
  · have h := C1_unit_conversion_amended.1 "cups" 2 ⟨"cup", 1⟩ (by decide)
      (by decide) (by norm_num)
    rw [h]
    norm_num
  · exact C1_unit_conversion_amended.2 none "2 cups olive oil" recTwoCups
      parse_two_cups

/-- Counterexample to **C1** as stated: the line `"0 cups milk"` parses
with the recognized unit token `cups` and the numeric quantity `0`, yet its
`quantityInBaseUnits` is undefined rather than `0 × 16`: the JavaScript
truthiness guard `!quantity` discards a zero quantity. -/
theorem C1_zero_quantity_counterexample :
    parseIngredientRegex "0 cups milk" = some recZeroCups ∧
    recZeroCups.quantity = some 0 ∧
    recZeroCups.unit = some "cups" ∧
    assocLookup UNIT_MAP "cups" = some ⟨"cup", 1⟩ ∧
    recZeroCups.quantityInBaseUnits = none :=
  ⟨parse_zero_cups, rfl, rfl, by decide, rfl⟩

/-! ## Aggregator helper lemmas -/

theorem parseIngredients_all_simple (oracle : Option (List ParsedIngredient))
    (lines : List String)
    (h : lines.filter (fun l => (parseIngredientRegex l).isNone) = []) :
    parseIngredients oracle lines true = lines.filterMap parseIngredientRegex := by
  unfold parseIngredients
  rw [h]
  simp

theorem firstDedupGo_replicate (k : String) (seen : List String)
    (hk : k ∈ seen) : ∀ n, firstDedupGo seen (List.replicate n k) = []
  | 0 => rfl
  | n + 1 => by
    rw [List.replicate_succ, firstDedupGo, if_pos (by simpa using hk)]
    exact firstDedupGo_replicate k seen hk n

theorem firstDedup_replicate (k : String) (n : Nat) :
    firstDedup (List.replicate (n + 1) k) = [k] := by
  rw [firstDedup, List.replicate_succ, firstDedupGo, if_neg (by simp)]
  rw [firstDedupGo_replicate k [k] (by simp)]

theorem aggregate_const_key (k : String) (ps : List ParsedIngredient)
    (h0 : ps ≠ []) (hall : ∀ p ∈ ps, groupKeyStr p = k) :
    aggregateIngredients ps = [buildEntry k ps] := by
  have hmap : ps.map groupKeyStr = List.replicate ps.length k :=
    List.eq_replicate.mpr ⟨by simp, by
      intro b hb
      rcases List.mem_map.mp hb with ⟨p, hp, rfl⟩
      exact hall p hp⟩
  have hlen : ps.length = (ps.length - 1) + 1 := by
    cases ps with
    | nil => exact absurd rfl h0
    | cons a t => simp
  have hfil : ps.filter (fun i => groupKeyStr i = k) = ps :=
    List.filter_eq_self.mpr (fun p hp => by simp [hall p hp])
  unfold aggregateIngredients
  rw [hmap, hlen, firstDedup_replicate]
  simp [hfil]

/-- The salt-and-pepper branch of `buildEntry`, for any group. -/
theorem buildEntry_saltpepper (ps : List ParsedIngredient) :
    buildEntry "salt and pepper::none" ps =
      { name := "Salt and black pepper", canonicalName := "salt and pepper",
        baseName := (ps.headD default).baseName, totalQuantity := none,
        unit := none, baseUnit := "none", lines := ps,
        «section» := "Spices" } := rfl

/-! ## C7: tbsp-to-cups humanization -/

/-- **C7**: for `baseUnit = tbsp` and any total of at least 16, the
formatter renders whole cups by integer division, discarding the remainder
(`17 ↦ 1 cup`), and aggregating "2 cups" + "1 cup" of the same canonical
name yields 48 base tbsp which renders as 3 cups, for every outcome of the
external interpretation call. -/
theorem C7_tbsp_to_cups :
    (∀ (name : String) (q : ℚ), 16 ≤ q →
      formatQuantity (some q) "tbsp" name =
        (some ((⌊q / 16⌋ : ℤ) : ℚ),
         some (if ((⌊q / 16⌋ : ℤ) : ℚ) = 1 then "cup" else "cups"))) ∧
    (∀ oracle : Option (List ParsedIngredient),
      ∃ e, aggregateIngredients
          (parseIngredients oracle ["2 cups olive oil", "1 cup olive oil"] true) =
            [e] ∧
        e.totalQuantity = some 48 ∧ e.baseUnit = "tbsp" ∧
        formatQuantity (some 48) "tbsp" e.name = (some 3, some "cups")) := by
  constructor
  · intro name q hq
    unfold formatQuantity
    rw [if_neg (by simp), if_pos ⟨rfl, hq⟩]
    simp only [Option.getD_some, ite_self]
  · intro oracle
    have hp : parseIngredients oracle
        ["2 cups olive oil", "1 cup olive oil"] true = [recTwoCups, recOneCup] := by
      rw [parseIngredients_all_simple oracle _ (by decide)]
      simp [List.filterMap_cons, parse_two_cups, parse_one_cup]
    have hagg : aggregateIngredients [recTwoCups, recOneCup] =
        [buildEntry "olive oil::tbsp" [recTwoCups, recOneCup]] :=
      aggregate_const_key _ _ (by simp) (by
        intro p hp'
        have hp2 : p = recTwoCups ∨ p = recOneCup := by simpa using hp'
        rcases hp2 with rfl | rfl <;> decide)
    rw [hp, hagg]
    refine ⟨_, rfl, ?_, rfl, ?_⟩
    · rw [show (buildEntry "olive oil::tbsp" [recTwoCups, recOneCup]).totalQuantity =
          some ((2 * 16 : ℚ) + ((1 * 16 : ℚ) + 0)) from rfl]
      norm_num
    · unfold formatQuantity
      rw [if_neg (by simp), if_pos ⟨rfl, by norm_num⟩]
      norm_num [show ⌊(48 : ℚ) / 16⌋ = 3 by norm_num]

/-- Witness for `C7_tbsp_to_cups`: 17 tbsp render as 1 cup (the remaining
tablespoon is discarded). -/
theorem C7_tbsp_to_cups_witness :
    formatQuantity (some 17) "tbsp" "Olive oil" = (some 1, some "cup") := by
  have h := C7_tbsp_to_cups.1 "Olive oil" 17 (by norm_num)
  rw [h]
  norm_num [show ⌊(17 : ℚ) / 16⌋ = 1 by norm_num]

/-! ## C2: salt-and-pepper collapse -/

/-- **C2**: parsing and aggregating any non-empty combination of the lines
"Salt and pepper to taste", "salt to taste" and "pepper to taste" yields
exactly one aggregated entry, named "Salt and black pepper", with undefined
quantity and section "Spices" — for every outcome of the external
interpretation call (all three lines are pattern-resolved). -/
theorem C2_salt_pepper_collapse :
    ∀ (oracle : Option (List ParsedIngredient)) (ls : List String),
      ls ≠ [] →
      (∀ l ∈ ls, l = "Salt and pepper to taste" ∨ l = "salt to taste" ∨
        l = "pepper to taste") →
      ∃ e, aggregateIngredients (parseIngredients oracle ls true) = [e] ∧
        e.name = "Salt and black pepper" ∧ e.totalQuantity = none ∧
        e.«section» = "Spices" := by
  intro oracle ls h0 hall
  have hsome : ∀ l ∈ ls, (parseIngredientRegex l).isSome := by
    intro l hl
    rcases hall l hl with rfl | rfl | rfl <;> decide
  have hcomplex : ls.filter (fun l => (parseIngredientRegex l).isNone) = [] := by
    rw [List.filter_eq_nil]
    intro l hl
    have h := hsome l hl
    cases hh : parseIngredientRegex l with
    | none => rw [hh] at h; cases h
    | some r => simp [hh]
  rw [parseIngredients_all_simple oracle ls hcomplex]
  have hne : ls.filterMap parseIngredientRegex ≠ [] := by
    cases ls with
    | nil => exact absurd rfl h0
    | cons a t =>
      have h := hsome a (by simp)
      cases hh : parseIngredientRegex a with
      | none => rw [hh] at h; cases h
      | some r => simp [List.filterMap_cons, hh]
  have hkeys : ∀ p ∈ ls.filterMap parseIngredientRegex,
      groupKeyStr p = "salt and pepper::none" := by
    intro p hp
    rcases List.mem_filterMap.mp hp with ⟨l, hl, hsome'⟩
    rcases hall l hl with rfl | rfl | rfl
    · have hk : (parseIngredientRegex "Salt and pepper to taste").map
          groupKeyStr = some "salt and pepper::none" := by decide
      rw [hsome'] at hk
      exact Option.some.inj hk
    · have hk : (parseIngredientRegex "salt to taste").map groupKeyStr =
          some "salt and pepper::none" := by decide
      rw [hsome'] at hk
      exact Option.some.inj hk
    · have hk : (parseIngredientRegex "pepper to taste").map groupKeyStr =
          some "salt and pepper::none" := by decide
      rw [hsome'] at hk
      exact Option.some.inj hk
  rw [aggregate_const_key _ _ hne hkeys, buildEntry_saltpepper]
  exact ⟨_, rfl, rfl, rfl, rfl⟩

/-- Witness for `C2_salt_pepper_collapse`: all three lines at once, with a
failed external call. -/
theorem C2_salt_pepper_collapse_witness :
    ∃ e, aggregateIngredients (parseIngredients none
        ["Salt and pepper to taste", "salt to taste", "pepper to taste"]
        true) = [e] ∧
      e.name = "Salt and black pepper" ∧ e.totalQuantity = none ∧
      e.«section» = "Spices" :=
  C2_salt_pepper_collapse none _ (by decide) (by decide)

/-! ## Parser-output structure lemmas -/

theorem regex_enrich {l : String} {r : ParsedIngredient}
    (h : parseIngredientRegex l = some r) :
    ∃ p, r = enrichParsedIngredient p := by
  unfold parseIngredientRegex at h
  dsimp only at h
  split at h
  · exact ⟨_, (Option.some.inj h).symm⟩
  · split at h
    · exact ⟨_, (Option.some.inj h).symm⟩
    · split at h
      · exact ⟨_, (Option.some.inj h).symm⟩
      · cases h

theorem mem_enrichAiResults {cLines : List String} {rec : ParsedIngredient} :
    ∀ {i : Nat} {rs : List ParsedIngredient},
      rec ∈ enrichAiResults cLines i rs →
      ∃ p, rec = enrichParsedIngredient p := by
  intro i rs
  induction rs generalizing i with
  | nil => intro h; cases h
  | cons r rest ih =>
    intro h
    rcases List.mem_cons.mp h with h | h
    · exact ⟨_, h⟩
    · exact ih h

theorem mem_recombine {sLines : List String} :
    ∀ {rem : List String} {sRes cRes : List ParsedIngredient}
      {rec : ParsedIngredient},
      rec ∈ recombine sLines sRes cRes rem →
      rec ∈ sRes ∨ rec ∈ cRes ∨
        ∃ l, rec = enrichParsedIngredient (mkFallback l) := by
  intro rem
  induction rem with
  | nil =>
    intro sRes cRes rec h
    cases h
  | cons l rest ih =>
    intro sRes cRes rec h
    rw [recombine.eq_def] at h
    dsimp only at h
    split at h
    · split at h
      · rcases List.mem_cons.mp h with rfl | h
        · exact Or.inl (List.mem_cons_self _ _)
        · rcases ih h with h | h | h
          · exact Or.inl (List.mem_cons_of_mem _ h)
          · exact Or.inr (Or.inl h)
          · exact Or.inr (Or.inr h)
      · rcases List.mem_cons.mp h with rfl | h
        · exact Or.inr (Or.inr ⟨l, rfl⟩)
        · rcases ih h with h | h | h
          · cases h
          · exact Or.inr (Or.inl h)
          · exact Or.inr (Or.inr h)
    · split at h
      · rcases List.mem_cons.mp h with rfl | h
        · exact Or.inr (Or.inl (List.mem_cons_self _ _))
        · rcases ih h with h | h | h
          · exact Or.inl h
          · exact Or.inr (Or.inl (List.mem_cons_of_mem _ h))
          · exact Or.inr (Or.inr h)
      · rcases List.mem_cons.mp h with rfl | h
        · exact Or.inr (Or.inr ⟨l, rfl⟩)
        · rcases ih h with h | h | h
          · exact Or.inl h
          · cases h
          · exact Or.inr (Or.inr h)

theorem mem_parseIngredients_enrich {oracle : Option (List ParsedIngredient)}
    {lines : List String} {useAI : Bool} {rec : ParsedIngredient}
    (h : rec ∈ parseIngredients oracle lines useAI) :
    ∃ p, rec = enrichParsedIngredient p := by
  unfold parseIngredients at h
  dsimp only at h
  split at h
  · split at h
    · rcases mem_recombine h with h | h | ⟨l, rfl⟩
      · rcases List.mem_filterMap.mp h with ⟨l, -, hsome⟩
        exact regex_enrich hsome
      · exact mem_enrichAiResults h
      · exact ⟨_, rfl⟩
    · rcases mem_recombine h with h | h | ⟨l, rfl⟩
      · rcases List.mem_filterMap.mp h with ⟨l, -, hsome⟩
        exact regex_enrich hsome
      · rcases List.mem_map.mp h with ⟨f, -, rfl⟩
        exact ⟨_, rfl⟩
      · exact ⟨_, rfl⟩
  · rcases List.mem_filterMap.mp h with ⟨l, -, hsome⟩
    exact regex_enrich hsome

theorem UNIT_MAP_no_none :
    ∀ kv ∈ UNIT_MAP, kv.1 ≠ "" → kv.2.baseUnit ≠ "none" := by decide

/-- Case analysis of `normalizeUnit` under the whitespace-unit proviso: a
`"none"` base unit carries no quantity, any other base unit carries one. -/
theorem normalizeUnit_spec (unit : Option String) (quantity : Option ℚ)
    (hu : ∀ u, unit = some u → u = "" ∨ jsTrim (jsLower u) ≠ "") :
    ((normalizeUnit unit quantity).1 = "none" →
      (normalizeUnit unit quantity).2 = none) ∧
    ((normalizeUnit unit quantity).1 ≠ "none" →
      ∃ q, (normalizeUnit unit quantity).2 = some q) := by
  unfold normalizeUnit
  split_ifs with h1 h2
  · refine ⟨fun h => by simp at h, fun _ => ?_⟩
    rcases h1 with ⟨-, hq⟩
    exact Option.ne_none_iff_exists'.mp hq
  · exact ⟨fun _ => rfl, fun h => absurd rfl h⟩
  · have hst : strTruthy unit = true := by
      cases hst : strTruthy unit with
      | false => exact absurd (Or.inl hst) h2
      | true => rfl
    obtain ⟨u, hu', hne⟩ : ∃ u, unit = some u ∧ u ≠ "" := by
      cases unit with
      | none => simp [strTruthy] at hst
      | some u =>
        refine ⟨u, rfl, ?_⟩
        simpa [strTruthy] using hst
    have hkey : jsTrim (jsLower (unit.getD "")) ≠ "" := by
      rw [hu']
      rcases hu u hu' with h | h
      · exact absurd h hne
      · exact h
    cases hl : assocLookup UNIT_MAP (jsTrim (jsLower (unit.getD ""))) with
    | some info =>
      have hinfo : info.baseUnit ≠ "none" :=
        UNIT_MAP_no_none _ (assocLookup_mem hl) hkey
      dsimp only
      rw [hl]
      dsimp only
      split_ifs
      · exact ⟨fun h => by simp at h, fun _ => ⟨_, rfl⟩⟩
      · exact ⟨fun h => by simp at h, fun _ => ⟨_, rfl⟩⟩
      · exact ⟨fun h => by simp at h, fun _ => ⟨_, rfl⟩⟩
      · exact ⟨fun h => absurd h hinfo, fun _ => ⟨_, rfl⟩⟩
    | none =>
      dsimp only
      rw [hl]
      exact ⟨fun h => by simp at h, fun _ => ⟨_, rfl⟩⟩

/-! ## C6: the base-unit invariants -/

/-- **C6** (amended): for every record produced by the batch parser under
any external response, *provided* the record's unit string is not a
non-empty all-whitespace string (which is truthy in JavaScript yet trims to
the unit table's `""` entry): a `"none"` base unit has no
`quantityInBaseUnits`, and a present quantity with an absent unit token
yields base unit `"unit"` with the quantity taken as a count.  The
unrestricted claim is refuted by `C6_whitespace_unit_counterexample`. -/
theorem C6_base_unit_invariant_amended :
    ∀ (lines : List String) (oracle : Option (List ParsedIngredient))
      (rec : ParsedIngredient),
      rec ∈ parseIngredients oracle lines true →
      (∀ u, rec.unit = some u → u = "" ∨ jsTrim (jsLower u) ≠ "") →
      ((rec.baseUnit = some "none" → rec.quantityInBaseUnits = none) ∧
       (∀ q, rec.quantity = some q →
         (rec.unit = none ∨ rec.unit = some "") →
         rec.baseUnit = some "unit" ∧ rec.quantityInBaseUnits = some q)) := by
  intro lines oracle rec hmem hu
  obtain ⟨p, rfl⟩ := mem_parseIngredients_enrich hmem
  rw [show (enrichParsedIngredient p).unit = p.unit from rfl] at hu
  constructor
  · intro h
    rw [show (enrichParsedIngredient p).baseUnit =
        some (normalizeUnit p.unit p.quantity).1 from rfl] at h
    rw [show (enrichParsedIngredient p).quantityInBaseUnits =
        (normalizeUnit p.unit p.quantity).2 from rfl]
    exact (normalizeUnit_spec p.unit p.quantity hu).1 (Option.some.inj h)
  · intro q hq' habs
    rw [show (enrichParsedIngredient p).quantity = p.quantity from rfl] at hq'
    rw [show (enrichParsedIngredient p).unit = p.unit from rfl] at habs
    rw [show (enrichParsedIngredient p).baseUnit =
        some (normalizeUnit p.unit p.quantity).1 from rfl,
      show (enrichParsedIngredient p).quantityInBaseUnits =
        (normalizeUnit p.unit p.quantity).2 from rfl]
    have h1 : strTruthy p.unit = false := by
      rcases habs with h | h <;> simp [h, strTruthy]
    have h2 : p.quantity ≠ none := by rw [hq']; simp
    unfold normalizeUnit
    rw [if_pos ⟨h1, h2⟩]
    exact ⟨rfl, by rw [hq']⟩

/-- Witness for `C6_base_unit_invariant_amended`: an external answer with
quantity 2 and no unit token is counted as 2 units. -/
theorem C6_base_unit_invariant_witness :
    (parseIngredient (some aiCountOnly) "mystery item" true).baseUnit =
      some "unit" ∧
    (parseIngredient (some aiCountOnly) "mystery item" true).quantityInBaseUnits =
      some 2 :=
  (C6_base_unit_invariant_amended ["mystery item"] (some [aiCountOnly])
      (parseIngredient (some aiCountOnly) "mystery item" true)
      (by decide)
      (by
        intro u hu
        have h : (parseIngredient (some aiCountOnly) "mystery item" true).unit =
            none := by decide
        rw [h] at hu
        cases hu)).2
    2 (by decide) (Or.inl (by decide))

/-- Counterexample to **C6** as stated: an external-interpretation answer
whose unit is a single space (truthy, but trimming to the unit table's `""`
entry) produces a record with `baseUnit = "none"` and a *defined*
`quantityInBaseUnits`. -/
theorem C6_whitespace_unit_counterexample :
    (parseIngredient (some aiSpaceUnit) "chicken broth" true).baseUnit =
      some "none" ∧
    (parseIngredient (some aiSpaceUnit) "chicken broth" true).quantityInBaseUnits =
      some 1 := by
  constructor <;> decide

/-! ## C10: quantityInBaseUnits defined iff baseUnit is not "none" -/

/-- **C10** (amended): for every record produced by the batch parser under
any external response, *provided* the record's unit string is not a
non-empty all-whitespace string, `quantityInBaseUnits` is defined exactly
when `baseUnit` is not `"none"`.  The unrestricted biconditional is refuted
by `C10_whitespace_unit_counterexample`. -/
theorem C10_qibu_iff_base_unit_amended :
    ∀ (lines : List String) (oracle : Option (List ParsedIngredient))
      (rec : ParsedIngredient),
      rec ∈ parseIngredients oracle lines true →
      (∀ u, rec.unit = some u → u = "" ∨ jsTrim (jsLower u) ≠ "") →
      ((∃ q, rec.quantityInBaseUnits = some q) ↔ rec.baseUnit ≠ some "none") := by
  intro lines oracle rec hmem hu
  obtain ⟨p, rfl⟩ := mem_parseIngredients_enrich hmem
  rw [show (enrichParsedIngredient p).unit = p.unit from rfl] at hu
  rw [show (enrichParsedIngredient p).baseUnit =
      some (normalizeUnit p.unit p.quantity).1 from rfl,
    show (enrichParsedIngredient p).quantityInBaseUnits =
      (normalizeUnit p.unit p.quantity).2 from rfl]
  have hs := normalizeUnit_spec p.unit p.quantity hu
  constructor
  · rintro ⟨q, hq⟩ hbun
    have h0 := hs.1 (Option.some.inj hbun)
    rw [h0] at hq
    cases hq
  · intro hb
    exact hs.2 (fun h => hb (by rw [h]))

/-- Witness for `C10_qibu_iff_base_unit_amended`: an external answer with a
`tbsp` unit and quantity 3 has a defined quantity, hence its base unit is
not `"none"`. -/
theorem C10_qibu_iff_base_unit_witness :
    (parseIngredient (some aiTbspOnly) "mystery liquid" true).baseUnit ≠
      some "none" :=
  (C10_qibu_iff_base_unit_amended ["mystery liquid"] (some [aiTbspOnly])
      (parseIngredient (some aiTbspOnly) "mystery liquid" true)
      (by decide)
      (by
        intro u hu
        have h : (parseIngredient (some aiTbspOnly) "mystery liquid" true).unit =
            some "tbsp" := by decide
        rw [h] at hu
        right
        rw [← Option.some.inj hu]
        decide)).mp
    ⟨3, by decide⟩

/-- Counterexample to **C10** as stated: a whitespace unit with quantity 2
yields a defined `quantityInBaseUnits` on a `"none"` base unit, breaking
the biconditional. -/
theorem C10_whitespace_unit_counterexample :
    (parseIngredient (some aiSpaceUnitTwo) "beefy mixture" true).quantityInBaseUnits =
      some 2 ∧
    (parseIngredient (some aiSpaceUnitTwo) "beefy mixture" true).baseUnit =
      some "none" := by
  constructor <;> decide


/-! ## C8: the salt-and-pepper normalization rule -/

/-- Every synonym-table entry whose key (or whose key with the trailing `s`
re-attached, as the singularization step sees it) matches one of the three
salt/pepper regexes maps to `"salt and pepper"`. -/
theorem NAME_MAP_salt_values :
    ∀ kv ∈ NAME_NORMALIZATION_MAP,
      ((reSaltAndPepper (kv.1.data ++ ['s']) ||
        reSaltToTaste (kv.1.data ++ ['s']) ||
        rePepperToTaste (kv.1.data ++ ['s'])) = true ∨
       (reSaltAndPepper kv.1.data || reSaltToTaste kv.1.data ||
        rePepperToTaste kv.1.data) = true) →
      kv.2 = "salt and pepper" := by decide

/-- The salt/pepper special-case block at the end of
`normalizeCanonicalName`, on a string matching one of the three regexes,
yields `"salt and pepper"`. -/
theorem salt_special_step (t : String)
    (h : (reSaltAndPepper t.data || reSaltToTaste t.data ||
      rePepperToTaste t.data) = true) :
    (if rePepperToTaste (if (reSaltAndPepper t.data || reSaltToTaste t.data) = true
          then "salt and pepper" else t).data = true
      then "salt and pepper"
      else if (reSaltAndPepper t.data || reSaltToTaste t.data) = true
        then "salt and pepper" else t) = "salt and pepper" := by
  by_cases h12 : (reSaltAndPepper t.data || reSaltToTaste t.data) = true
  · rw [if_pos h12, ite_self]
  · have h3 : rePepperToTaste t.data = true := by
      rcases Bool.or_eq_true_iff.mp h with h' | h'
      · exact absurd h' h12
      · exact h'
    rw [if_neg h12, if_pos h3]

/-- **C8** (amended): the Name Normalizer maps every base name whose
lower-cased, trimmed form matches `^salt\s*(and|&)\s*pepper`,
`^salt\s+to\s+taste` or `^pepper\s+to\s+taste$` to the fixed canonical
key `"salt and pepper"`.  The claim's "either word order" clause fails:
`"pepper and salt"` is not normalized (`C8_pepper_and_salt_counterexample`),
because the regexes are anchored with `salt` first (the two `to taste`
forms aside). -/
theorem C8_salt_pepper_normalizer_amended :
    ∀ s : String,
      (reSaltAndPepper (jsTrim (jsLower s)).data ||
       reSaltToTaste (jsTrim (jsLower s)).data ||
       rePepperToTaste (jsTrim (jsLower s)).data) = true →
      normalizeCanonicalName s = "salt and pepper" := by
  intro s hok
  have htr : jsTrim (jsTrim (jsLower s)) = jsTrim (jsLower s) := jsTrim_idem _
  -- the tail of the normalizer (trim, synonym lookup, special cases) sends
  -- both possible stage-1 values to "salt and pepper"
  have key : ∀ n1 : String,
      n1 = jsTrim (jsLower s) ∨ n1 = "salt and pepper" →
      (let n2 := jsTrim n1
       let n3 :=
         match assocLookup NAME_NORMALIZATION_MAP n2 with
         | some v => if v ≠ "" then v else n2
         | none => n2
       let n4 := if (reSaltAndPepper n3.data || reSaltToTaste n3.data) = true
         then "salt and pepper" else n3
       if rePepperToTaste n4.data = true then "salt and pepper" else n4) =
        "salt and pepper" := by
    rintro n1 (rfl | rfl)
    · dsimp only
      rw [htr]
      cases hlook : assocLookup NAME_NORMALIZATION_MAP (jsTrim (jsLower s)) with
      | some v =>
        dsimp only
        by_cases hv : v ≠ ""
        · rw [if_pos hv]
          have hval : v = "salt and pepper" :=
            NAME_MAP_salt_values (jsTrim (jsLower s), v)
              (assocLookup_mem hlook) (Or.inr hok)
          rw [hval]
          decide
        · rw [if_neg hv]
          exact salt_special_step _ hok
      | none =>
        dsimp only
        exact salt_special_step _ hok
    · decide
  -- the inner fallback lookup of the plural stage
  have hinner :
      (match assocLookup NAME_NORMALIZATION_MAP (jsTrim (jsLower s)) with
        | some w => if w ≠ "" then w else jsTrim (jsLower s)
        | none => jsTrim (jsLower s)) = jsTrim (jsLower s) ∨
      (match assocLookup NAME_NORMALIZATION_MAP (jsTrim (jsLower s)) with
        | some w => if w ≠ "" then w else jsTrim (jsLower s)
        | none => jsTrim (jsLower s)) = "salt and pepper" := by
    cases hlook : assocLookup NAME_NORMALIZATION_MAP (jsTrim (jsLower s)) with
    | some w =>
      dsimp only
      by_cases hw : w ≠ ""
      · rw [if_pos hw]
        exact Or.inr (NAME_MAP_salt_values (jsTrim (jsLower s), w)
          (assocLookup_mem hlook) (Or.inr hok))
      · rw [if_neg hw]
        exact Or.inl rfl
    | none => exact Or.inl rfl
  -- the stage-1 (plural handling) value
  have hn1 :
      (if ['s'].isSuffixOf (jsTrim (jsLower s)).data = true ∧
          ¬ ['s', 's'].isSuffixOf (jsTrim (jsLower s)).data = true ∧
          ¬ ['u', 's'].isSuffixOf (jsTrim (jsLower s)).data = true then
        match assocLookup NAME_NORMALIZATION_MAP
            (⟨(jsTrim (jsLower s)).data.dropLast⟩ : String) with
        | some v =>
          if v ≠ "" then v
          else
            match assocLookup NAME_NORMALIZATION_MAP (jsTrim (jsLower s)) with
            | some w => if w ≠ "" then w else jsTrim (jsLower s)
            | none => jsTrim (jsLower s)
        | none =>
          match assocLookup NAME_NORMALIZATION_MAP (jsTrim (jsLower s)) with
          | some w => if w ≠ "" then w else jsTrim (jsLower s)
          | none => jsTrim (jsLower s)
      else jsTrim (jsLower s)) = jsTrim (jsLower s) ∨
      (if ['s'].isSuffixOf (jsTrim (jsLower s)).data = true ∧
          ¬ ['s', 's'].isSuffixOf (jsTrim (jsLower s)).data = true ∧
          ¬ ['u', 's'].isSuffixOf (jsTrim (jsLower s)).data = true then
        match assocLookup NAME_NORMALIZATION_MAP
            (⟨(jsTrim (jsLower s)).data.dropLast⟩ : String) with
        | some v =>
          if v ≠ "" then v
          else
            match assocLookup NAME_NORMALIZATION_MAP (jsTrim (jsLower s)) with
            | some w => if w ≠ "" then w else jsTrim (jsLower s)
            | none => jsTrim (jsLower s)
        | none =>
          match assocLookup NAME_NORMALIZATION_MAP (jsTrim (jsLower s)) with
          | some w => if w ≠ "" then w else jsTrim (jsLower s)
          | none => jsTrim (jsLower s)
      else jsTrim (jsLower s)) = "salt and pepper" := by
    by_cases hpl : (['s'].isSuffixOf (jsTrim (jsLower s)).data = true ∧
        ¬ ['s', 's'].isSuffixOf (jsTrim (jsLower s)).data = true ∧
        ¬ ['u', 's'].isSuffixOf (jsTrim (jsLower s)).data = true)
    · have hsplit : (jsTrim (jsLower s)).data.dropLast ++ ['s'] =
          (jsTrim (jsLower s)).data := by
        rcases List.isSuffixOf_iff_suffix.mp hpl.1 with ⟨r, hr⟩
        rw [← hr, List.dropLast_concat]
      cases hlook : assocLookup NAME_NORMALIZATION_MAP
          (⟨(jsTrim (jsLower s)).data.dropLast⟩ : String) with
      | some v =>
        dsimp only
        by_cases hv : v ≠ ""
        · rw [if_pos hpl]
          refine Or.inr ?_
          have hval : v = "salt and pepper" := by
            refine NAME_MAP_salt_values
              (⟨(jsTrim (jsLower s)).data.dropLast⟩, v)
              (assocLookup_mem hlook) (Or.inl ?_)
            show (reSaltAndPepper ((jsTrim (jsLower s)).data.dropLast ++ ['s']) ||
              reSaltToTaste ((jsTrim (jsLower s)).data.dropLast ++ ['s']) ||
              rePepperToTaste ((jsTrim (jsLower s)).data.dropLast ++ ['s'])) = true
            rw [hsplit]
            exact hok
          rw [if_pos hv]
          exact hval
        · rw [if_pos hpl, if_neg hv]
          exact hinner
      | none =>
        dsimp only
        rw [if_pos hpl]
        exact hinner
    · rw [if_neg hpl]
      exact Or.inl rfl
  exact key _ hn1

/-- Witness for `C8_salt_pepper_normalizer_amended`: three concrete
variants. -/
theorem C8_salt_pepper_normalizer_witness :
    normalizeCanonicalName "Salt & Pepper" = "salt and pepper" ∧
    normalizeCanonicalName "salt to taste" = "salt and pepper" ∧
    normalizeCanonicalName "Pepper to taste" = "salt and pepper" :=
  ⟨C8_salt_pepper_normalizer_amended "Salt & Pepper" (by decide),
   C8_salt_pepper_normalizer_amended "salt to taste" (by decide),
   C8_salt_pepper_normalizer_amended "Pepper to taste" (by decide)⟩

/-- Counterexample to **C8** as stated: the reversed word order
`"pepper and salt"` is NOT canonicalized to `"salt and pepper"` — the
special-case regexes are anchored on `salt` first (plus the two
`to taste` forms), so the reversed phrase passes through unchanged. -/
theorem C8_pepper_and_salt_counterexample :
    normalizeCanonicalName "pepper and salt" = "pepper and salt" ∧
    ("pepper and salt" : String) ≠ "salt and pepper" := by
  exact ⟨by decide, by decide⟩

/-! ## C9: order-insensitivity of aggregation -/

/-- Membership in the first-occurrence deduplication. -/
theorem firstDedupGo_mem (a : String) :
    ∀ (seen l : List String), a ∈ firstDedupGo seen l ↔ a ∈ l ∧ a ∉ seen := by
  intro seen l
  induction l generalizing seen with
  | nil => simp [firstDedupGo]
  | cons k rest ih =>
    rw [firstDedupGo]
    by_cases hk : seen.contains k = true
    · rw [if_pos hk]
      rw [ih]
      have hkm : k ∈ seen := by simpa using hk
      constructor
      · rintro ⟨h1, h2⟩
        exact ⟨List.mem_cons_of_mem _ h1, h2⟩
      · rintro ⟨h1, h2⟩
        rcases List.mem_cons.mp h1 with rfl | h1
        · exact absurd hkm h2
        · exact ⟨h1, h2⟩
    · rw [if_neg hk]
      have hkm : k ∉ seen := by simpa using hk
      constructor
      · intro h
        rcases List.mem_cons.mp h with rfl | h
        · exact ⟨List.mem_cons_self _ _, hkm⟩
        · rcases (ih _).mp h with ⟨h1, h2⟩
          simp only [List.mem_cons, not_or] at h2
          exact ⟨List.mem_cons_of_mem _ h1, h2.2⟩
      · rintro ⟨h1, h2⟩
        rcases List.mem_cons.mp h1 with rfl | h1
        · exact List.mem_cons_self _ _
        · by_cases hak : a = k
          · subst hak
            exact List.mem_cons_self _ _
          · refine List.mem_cons_of_mem _ ((ih _).mpr ⟨h1, ?_⟩)
            simp [hak, h2]
  
/-- The first-occurrence deduplication has no duplicates. -/
theorem firstDedupGo_nodup : ∀ (seen l : List String),
    (firstDedupGo seen l).Nodup := by
  intro seen l
  induction l generalizing seen with
  | nil => exact List.nodup_nil
  | cons k rest ih =>
    rw [firstDedupGo]
    by_cases hk : seen.contains k = true
    · rw [if_pos hk]
      exact ih _
    · rw [if_neg hk]
      refine List.nodup_cons.mpr ⟨?_, ih _⟩
      intro hmem
      rcases (firstDedupGo_mem k _ _).mp hmem with ⟨-, h2⟩
      exact h2 (List.mem_cons_self _ _)

/-- `firstDedup` keeps exactly the members. -/
theorem firstDedup_mem (a : String) (l : List String) :
    a ∈ firstDedup l ↔ a ∈ l := by
  rw [firstDedup, firstDedupGo_mem]
  simp

/-- `firstDedup` has no duplicates. -/
theorem firstDedup_nodup (l : List String) : (firstDedup l).Nodup :=
  firstDedupGo_nodup [] l

/-- Every branch of `buildEntry` stores the whole group as `lines`. -/
theorem buildEntry_lines (k : String) (g : List ParsedIngredient) :
    (buildEntry k g).lines = g := by
  unfold buildEntry
  dsimp only
  split_ifs <;> rfl

set_option maxHeartbeats 2000000 in
/-- The order-insensitive projection of a group's entry is invariant under
permuting the group: the grouping key parts come from the key, the total is
a commutative sum, and the branch conditions depend only on filter lengths.
(The `name` and `unit` fields, by contrast, read the group's first
element.) -/
theorem entryKeyData_buildEntry (k : String) {g₁ g₂ : List ParsedIngredient}
    (hg : g₁.Perm g₂) :
    entryKeyData (buildEntry k g₁) = entryKeyData (buildEntry k g₂) := by
  have hfw := hg.filter (fun ing => ing.quantityInBaseUnits ≠ none)
  have hfo := hg.filter (fun ing => ing.quantityInBaseUnits = none)
  have hlw := hfw.length_eq
  have hlo := hfo.length_eq
  have hsum := (hfw.map (fun ing => ing.quantityInBaseUnits.getD 0)).sum_eq
  unfold buildEntry
  dsimp only
  rw [hlw, hlo, hsum]
  split_ifs <;> rfl

/-- **C9** (amended): aggregation is insensitive to input order up to the
order-insensitive projection: permuting the input permutes the multiset of
`(canonicalName, baseUnit, totalQuantity, section)` entries, and within each
entry the `lines` sequence is the subsequence of the input belonging to its
group key, preserving original relative order.  The claim's stronger "same
set of produced entries" fails because an entry's display `name` (and
`unit`) come from the group's *first* contributor
(`C9_counterexample`). -/
theorem C9_aggregation_order_insensitive_amended :
    ∀ (l₁ l₂ : List ParsedIngredient), l₁.Perm l₂ →
      ((aggregateIngredients l₁).map entryKeyData).Perm
        ((aggregateIngredients l₂).map entryKeyData) ∧
      (∀ e ∈ aggregateIngredients l₁, e.lines.Sublist l₁ ∧
        ∃ k, e.lines = l₁.filter (fun i => groupKeyStr i = k)) := by
  intro l₁ l₂ hp
  constructor
  · unfold aggregateIngredients
    rw [List.map_map, List.map_map]
    have hkeys : (firstDedup (l₁.map groupKeyStr)).Perm
        (firstDedup (l₂.map groupKeyStr)) := by
      refine (List.perm_ext_iff_of_nodup (firstDedup_nodup _)
        (firstDedup_nodup _)).mpr ?_
      intro a
      rw [firstDedup_mem, firstDedup_mem]
      exact (hp.map groupKeyStr).mem_iff
    refine (hkeys.map _).trans ?_
    have hcong : (firstDedup (l₂.map groupKeyStr)).map
        (entryKeyData ∘ fun k => buildEntry k
          (l₁.filter (fun ing => groupKeyStr ing = k))) =
      (firstDedup (l₂.map groupKeyStr)).map
        (entryKeyData ∘ fun k => buildEntry k
          (l₂.filter (fun ing => groupKeyStr ing = k))) :=
      List.map_congr_left (fun k _ =>
        entryKeyData_buildEntry k (hp.filter (fun ing => groupKeyStr ing = k)))
    rw [hcong]
  · intro e he
    unfold aggregateIngredients at he
    rcases List.mem_map.mp he with ⟨k, -, rfl⟩
    rw [buildEntry_lines]
    exact ⟨List.filter_sublist _, ⟨k, rfl⟩⟩

/-- Witness for `C9_aggregation_order_insensitive_amended`, at a concrete
swapped pair. -/
theorem C9_witness :
    ((aggregateIngredients [zNoodles, zPlural]).map entryKeyData).Perm
      ((aggregateIngredients [zPlural, zNoodles]).map entryKeyData) :=
  (C9_aggregation_order_insensitive_amended [zNoodles, zPlural]
    [zPlural, zNoodles] (List.Perm.swap _ _ _)).1

/-- Counterexample to **C9** as stated: swapping two records that share the
group key `zucchini::unit` but differ in base name changes the produced
entry's display name ("Zucchini Noodles" vs "Zucchinis"), so the set of
`AggregatedIngredient` entries is not order-independent. -/
theorem C9_counterexample :
    [zNoodles, zPlural].Perm [zPlural, zNoodles] ∧
    (aggregateIngredients [zNoodles, zPlural]).map (fun e => e.name) =
      ["Zucchini Noodles"] ∧
    (aggregateIngredients [zPlural, zNoodles]).map (fun e => e.name) =
      ["Zucchinis"] ∧
    aggregateIngredients [zNoodles, zPlural] ≠
      aggregateIngredients [zPlural, zNoodles] := by
  refine ⟨List.Perm.swap _ _ _, by decide, by decide, fun h => ?_⟩
  have h2 := congrArg (List.map (fun e => e.name)) h
  rw [show (aggregateIngredients [zNoodles, zPlural]).map (fun e => e.name) =
      ["Zucchini Noodles"] from by decide,
    show (aggregateIngredients [zPlural, zNoodles]).map (fun e => e.name) =
      ["Zucchinis"] from by decide] at h2
  exact absurd h2 (by decide)

theorem rankComplex_cons_some {l : String} {r : ParsedIngredient}
    (hpl : parseIngredientRegex l = some r) (rest : List String) (i : Nat) :
    rankComplex (l :: rest) (i + 1) = rankComplex rest i := by
  simp [rankComplex, List.take_succ_cons, List.filter_cons, hpl]

theorem rankComplex_cons_none {l : String}
    (hpl : parseIngredientRegex l = none) (rest : List String) (i : Nat) :
    rankComplex (l :: rest) (i + 1) = rankComplex rest i + 1 := by
  simp [rankComplex, List.take_succ_cons, List.filter_cons, hpl]

theorem get?_tail {α : Type} (l : List α) (i : Nat) :
    l.tail.get? i = l.get? (i + 1) := by
  cases l <;> rfl

theorem recombine_cons_simple (sLines : List String) (r : ParsedIngredient)
    (srest cRes : List ParsedIngredient) (l : String) (rest : List String)
    (h : sLines.contains l = true) :
    recombine sLines (r :: srest) cRes (l :: rest) =
      r :: recombine sLines srest cRes rest := by
  rw [recombine.eq_def]
  dsimp only
  rw [if_pos h]

theorem recombine_cons_complex (sLines : List String)
    (sRes cRes : List ParsedIngredient) (l : String) (rest : List String)
    (h : sLines.contains l = false) :
    recombine sLines sRes cRes (l :: rest) =
      ((cRes.get? 0).getD (enrichParsedIngredient (mkFallback l))) ::
        recombine sLines sRes cRes.tail rest := by
  rw [recombine.eq_def]
  dsimp only
  rw [if_neg (fun hc => by rw [hc] at h; cases h)]
  cases cRes <;> rfl

theorem recombine_spec (sLines : List String) :
    ∀ (rem : List String) (cRes : List ParsedIngredient),
      (∀ l ∈ rem, sLines.contains l = (parseIngredientRegex l).isSome) →
      (recombine sLines (rem.filterMap parseIngredientRegex) cRes rem).length =
        rem.length ∧
      (∀ i, i < rem.length →
        (recombine sLines (rem.filterMap parseIngredientRegex) cRes
            rem).getD i default =
          match parseIngredientRegex (rem.getD i "") with
          | some r => r
          | none => (cRes.get? (rankComplex rem i)).getD
              (enrichParsedIngredient (mkFallback (rem.getD i "")))) := by
  intro rem
  induction rem with
  | nil =>
    intro cRes _
    exact ⟨rfl, fun i hi => absurd hi (by simp)⟩
  | cons l rest ih =>
    intro cRes hmem
    cases hpl : parseIngredientRegex l with
    | some r =>
      have hcont : sLines.contains l = true := by
        rw [hmem l (List.mem_cons_self _ _), hpl]
        rfl
      have hfm : (l :: rest).filterMap parseIngredientRegex =
          r :: rest.filterMap parseIngredientRegex := by
        rw [List.filterMap_cons, hpl]
      rw [hfm, recombine_cons_simple _ _ _ _ _ _ hcont]
      obtain ⟨ihlen, ihpos⟩ :=
        ih cRes (fun l' hl' => hmem l' (List.mem_cons_of_mem _ hl'))
      refine ⟨by simp [ihlen], fun i hi => ?_⟩
      cases i with
      | zero =>
        rw [List.getD_cons_zero, List.getD_cons_zero, hpl]
      | succ i =>
        have hi' : i < rest.length := by simpa using hi
        rw [List.getD_cons_succ, List.getD_cons_succ, ihpos i hi',
          rankComplex_cons_some hpl]
    | none =>
      have hcont : sLines.contains l = false := by
        rw [hmem l (List.mem_cons_self _ _), hpl]
        rfl
      have hfm : (l :: rest).filterMap parseIngredientRegex =
          rest.filterMap parseIngredientRegex := by
        rw [List.filterMap_cons, hpl]
      rw [hfm, recombine_cons_complex _ _ _ _ _ hcont]
      obtain ⟨ihlen, ihpos⟩ :=
        ih cRes.tail (fun l' hl' => hmem l' (List.mem_cons_of_mem _ hl'))
      refine ⟨by simp [ihlen], fun i hi => ?_⟩
      cases i with
      | zero =>
        rw [List.getD_cons_zero, List.getD_cons_zero, hpl]
        rfl
      | succ i =>
        have hi' : i < rest.length := by simpa using hi
        rw [List.getD_cons_succ, List.getD_cons_succ, ihpos i hi',
          rankComplex_cons_none hpl, get?_tail]

theorem filter_rank_get :
    ∀ (lines : List String) (i : Nat), i < lines.length →
      (parseIngredientRegex (lines.getD i "")).isNone = true →
      (lines.filter (fun l => (parseIngredientRegex l).isNone)).get?
        (rankComplex lines i) = some (lines.getD i "") := by
  intro lines
  induction lines with
  | nil => intro i hi _; simp at hi
  | cons l rest ih =>
    intro i hi hn
    cases i with
    | zero =>
      rw [List.getD_cons_zero] at hn ⊢
      have h0 : rankComplex (l :: rest) 0 = 0 := rfl
      rw [h0, List.filter_cons, if_pos hn]
      rfl
    | succ i =>
      rw [List.getD_cons_succ] at hn ⊢
      have hi' : i < rest.length := by simpa using hi
      cases hpl : parseIngredientRegex l with
      | some r =>
        rw [rankComplex_cons_some hpl, List.filter_cons,
          if_neg (by rw [hpl]; simp)]
        exact ih i hi' hn
      | none =>
        rw [rankComplex_cons_none hpl, List.filter_cons,
          if_pos (by rw [hpl]; rfl), List.get?_cons_succ]
        exact ih i hi' hn

theorem filterMap_spec_all_some :
    ∀ (lines : List String),
      (∀ l ∈ lines, (parseIngredientRegex l).isSome = true) →
      (lines.filterMap parseIngredientRegex).length = lines.length ∧
      ∀ i, i < lines.length →
        (lines.filterMap parseIngredientRegex).get? i =
          parseIngredientRegex (lines.getD i "") := by
  intro lines
  induction lines with
  | nil => exact fun _ => ⟨rfl, fun i hi => absurd hi (by simp)⟩
  | cons l rest ih =>
    intro hall
    obtain ⟨r, hpl⟩ := Option.isSome_iff_exists.mp
      (hall l (List.mem_cons_self _ _))
    have hfm : (l :: rest).filterMap parseIngredientRegex =
        r :: rest.filterMap parseIngredientRegex := by
      rw [List.filterMap_cons, hpl]
    obtain ⟨ihlen, ihpos⟩ :=
      ih (fun l' hl' => hall l' (List.mem_cons_of_mem _ hl'))
    refine ⟨by rw [hfm]; simp [ihlen], fun i hi => ?_⟩
    cases i with
    | zero => rw [hfm, List.get?_cons_zero, List.getD_cons_zero, hpl]
    | succ i =>
      have hi' : i < rest.length := by simpa using hi
      rw [hfm, List.get?_cons_succ, List.getD_cons_succ]
      exact ihpos i hi'

/-- C3: the batched `parseIngredients` with `useAI = true` returns exactly
one record per input line, in input order: position `i` holds the
pattern-resolved record when line `i` matches a pattern, and otherwise the
enriched record aligned with line `i`'s rank among the unresolved lines —
drawn from the external batch answer when the call completed (an enriched
minimal fallback when the answer ran short), or from the individual
no-external-call fallback parse of that line when the batch call failed. -/
theorem C3_batch_contract (lines : List String)
    (oracle : Option (List ParsedIngredient)) :
    (parseIngredients oracle lines true).length = lines.length ∧
    ∀ i, i < lines.length →
      (parseIngredients oracle lines true).getD i default =
        expectedAt oracle lines i := by
  have hcontains : ∀ l ∈ lines,
      (lines.filter (fun l' => (parseIngredientRegex l').isSome)).contains l =
        (parseIngredientRegex l).isSome := by
    intro l hl
    cases hs : (parseIngredientRegex l).isSome with
    | true =>
      have hm : l ∈ lines.filter (fun l' => (parseIngredientRegex l').isSome) :=
        List.mem_filter.mpr ⟨hl, hs⟩
      simpa using hm
    | false =>
      have hm : l ∉ lines.filter (fun l' => (parseIngredientRegex l').isSome) := by
        intro hmem
        have h2 := (List.mem_filter.mp hmem).2
        rw [hs] at h2
        cases h2
      simpa using hm
  by_cases hc : (lines.filter (fun l => (parseIngredientRegex l).isNone)).length > 0
  · cases oracle with
    | some aiResults =>
      have heq : parseIngredients (some aiResults) lines true =
          recombine (lines.filter (fun l => (parseIngredientRegex l).isSome))
            (lines.filterMap parseIngredientRegex)
            (enrichAiResults
              (lines.filter (fun l => (parseIngredientRegex l).isNone)) 0
              aiResults)
            lines := by
        unfold parseIngredients
        dsimp only
        rw [if_pos ⟨hc, rfl⟩]
      rw [heq]
      obtain ⟨hlen, hpos⟩ := recombine_spec _ lines _ hcontains
      refine ⟨hlen, fun i hi => ?_⟩
      rw [hpos i hi]
      unfold expectedAt
      dsimp only
    | none =>
      have heq : parseIngredients none lines true =
          recombine (lines.filter (fun l => (parseIngredientRegex l).isSome))
            (lines.filterMap parseIngredientRegex)
            (((lines.filter (fun l => (parseIngredientRegex l).isNone)).map
                (fun l => parseIngredient none l false)).map
              (fun f => enrichParsedIngredient (fixBaseName f)))
            lines := by
        unfold parseIngredients
        dsimp only
        rw [if_pos ⟨hc, rfl⟩]
      rw [heq]
      obtain ⟨hlen, hpos⟩ := recombine_spec _ lines _ hcontains
      refine ⟨hlen, fun i hi => ?_⟩
      rw [hpos i hi]
      unfold expectedAt
      dsimp only
      cases hpl : parseIngredientRegex (lines.getD i "") with
      | some r => rfl
      | none =>
        rw [List.map_map, List.get?_map,
          filter_rank_get lines i hi (by rw [hpl]; rfl)]
        rfl
  · have hc0 : (lines.filter (fun l => (parseIngredientRegex l).isNone)).length
        = 0 := by omega
    have hall : ∀ l ∈ lines, (parseIngredientRegex l).isSome = true := by
      intro l hl
      cases hs : (parseIngredientRegex l).isSome with
      | true => rfl
      | false =>
        have hm : l ∈ lines.filter (fun l' => (parseIngredientRegex l').isNone) :=
          List.mem_filter.mpr ⟨hl, by
            rw [Option.isNone_iff_eq_none, ← Option.not_isSome_iff_eq_none]
            simp [hs]⟩
        rw [List.length_eq_zero] at hc0
        rw [hc0] at hm
        cases hm
    have heq : parseIngredients oracle lines true =
        lines.filterMap parseIngredientRegex := by
      unfold parseIngredients
      dsimp only
      rw [if_neg (fun hcon => hc hcon.1)]
    rw [heq]
    obtain ⟨hlen, hpos⟩ := filterMap_spec_all_some lines hall
    refine ⟨hlen, fun i hi => ?_⟩
    have hi2 : i < (lines.filterMap parseIngredientRegex).length := by
      rw [hlen]; exact hi
    have hmem' : lines.getD i "" ∈ lines := by
      rw [List.getD_eq_getElem?_getD, List.getElem?_eq_getElem hi]
      exact List.getElem_mem hi
    obtain ⟨r, hpl⟩ := Option.isSome_iff_exists.mp (hall _ hmem')
    have hget : (lines.filterMap parseIngredientRegex).get? i = some r := by
      rw [hpos i hi, hpl]
    rw [List.getD_eq_getElem?_getD, ← List.get?_eq_getElem?, hget]
    unfold expectedAt
    dsimp only
    rw [hpl]
    rfl

theorem C3_batch_contract_witness :
    (1 : Nat) < (["2 cups olive oil", "@@@"] : List String).length ∧
    (parseIngredients none ["2 cups olive oil", "@@@"] true).getD 1 default =
      expectedAt none ["2 cups olive oil", "@@@"] 1 :=
  ⟨by norm_num,
    (C3_batch_contract ["2 cups olive oil", "@@@"] none).2 1 (by norm_num)⟩
